import Mathlib

/-!
# GyverLampCpp: the effects manager

A shallow embedding of `src/EffectsManager.cpp` and of the button handling
(`processButton`) and the render bridge (`processMatrix32`, `processMatrixTask`) of
`src/main.cpp`.

* An `Effect*` is a handle (`EffectPtr`); the settings record every effect owns
  lives in a store indexed by the handle.
* The file-level globals `effectsMap`, `effectTimer`, `activeIndex` and the member
  vector `effects` are the fields of `State`.
* Calls to collaborators (`myMatrix`, the effects' virtual methods, `mqtt`,
  `lampWebServer`, `mySettings`, `Serial`) are appended to `State.calls` in program order.
* Dereferencing the `nullptr` that `activeEffect()` returns and indexing the vector
  outside its bounds are undefined behaviour in C++; here they end the operation
  with a `Fault`.
* `uint8_t` values are naturals reduced modulo 256 where the source converts or
  increments them; `size_t` is 32 bits wide on the ESP8266 and the ESP32.
* The bodies of the effects' virtual methods are not part of the manager: `activate`,
  `deactivate` and `Process` are recorded as calls, `initialize` is a parameter that
  rewrites the settings of the effect it is called on. None of them calls back into
  the manager.
* The calls of the render bridge to FreeRTOS and to the interrupt switches are recorded
  with their arguments; what `ulTaskNotifyTake` returns is an input.
-/

namespace GyverLamp

/-- Handle of an effect object (an `Effect*` of the source). -/
abbrev EffectPtr := Nat

/-- The part of `Effect::settings` that the manager reads. -/
structure EffectSettings where
  id : String
  name : String
  brightness : Nat
  speed : Nat
deriving DecidableEq, Repr

/-- A configuration record: `i` is the value of `json[F("i")].as<String>()`, the
remaining members are only read by the effects. -/
structure JsonObject where
  i : String
  fields : List (String × Nat)
deriving DecidableEq, Repr

/-- Calls the manager issues to its collaborators. -/
inductive Call where
  | matrixClear
  | matrixSetBrightness (brightness : Nat)
  | effectInit (effect : EffectPtr) (json : JsonObject)
  | effectActivate (effect : EffectPtr)
  | effectDeactivate (effect : EffectPtr)
  | effectProcess (effect : EffectPtr)
  | mqttUpdate
  | webUpdate
  | saveLater
  | serialMissing (effectId : String)
  | serialActivating (index : Nat) (name : String)
  | serialText (text : String)
  | serialStep (direction : Int) (brightness : Nat)
deriving DecidableEq, Repr

/-- Undefined behaviour an operation can run into. -/
inductive Fault where
  | nullDereference
  | outOfRange
deriving DecidableEq, Repr

/-- The manager's globals, the settings of every effect object, the brightness held
by the matrix and the calls issued so far. -/
structure State where
  effectsMap : List (String × EffectPtr)
  effects : List EffectPtr
  activeIndex : Nat
  effectTimer : Nat
  settings : EffectPtr → EffectSettings
  brightness : Nat
  calls : List Call

/-- The virtual `Effect::initialize(json)`: how an effect rewrites its own settings
from a configuration record. Its body is not part of the manager. -/
abbrev InitFn := EffectPtr → JsonObject → EffectSettings → EffectSettings

/-- The state after construction: nothing enabled, `activeIndex = 0`, `effectTimer = 0`. -/
def initialState (registry : List (String × EffectPtr)) (settings : EffectPtr → EffectSettings)
    (brightness : Nat) : State :=
  { effectsMap := registry, effects := [], activeIndex := 0, effectTimer := 0,
    settings := settings, brightness := brightness, calls := [] }

/-- Record one collaborator call. -/
def State.emit (s : State) (c : Call) : State :=
  { s with calls := s.calls ++ [c] }

/-- `myMatrix->setBrightness(b)`. -/
def setBrightness (b : Nat) (s : State) : State :=
  { s with brightness := b, calls := s.calls ++ [Call.matrixSetBrightness b] }

/-- `effect->initialize(json)`. -/
def initEffect (init : InitFn) (effect : EffectPtr) (json : JsonObject) (s : State) : State :=
  { s with
    settings := Function.update s.settings effect (init effect json (s.settings effect)),
    calls := s.calls ++ [Call.effectInit effect json] }

/-- Use of a pointer: a null pointer is a fault. -/
def deref : Option EffectPtr → Except Fault EffectPtr
  | some e => Except.ok e
  | none => Except.error Fault.nullDereference

/-- `effects[index]` of the vector: outside the bounds is a fault. -/
def elemAt (effects : List EffectPtr) (index : Nat) : Except Fault EffectPtr :=
  match effects[index]? with
  | some e => Except.ok e
  | none => Except.error Fault.outOfRange

/-- `effects.size() - 1` in `size_t` arithmetic. -/
def sizeMinusOne (size : Nat) : Nat :=
  (size + 4294967296 - 1) % 4294967296

/-- `EffectsManager::activeEffect`. -/
def activeEffect (s : State) : Option EffectPtr :=
  if s.effects.length > s.activeIndex then s.effects[s.activeIndex]? else none

/-- `EffectsManager::count`. -/
def count (s : State) : Nat :=
  s.effects.length % 256

/-- `EffectsManager::activeEffectIndex`. -/
def activeEffectIndex (s : State) : Nat :=
  s.activeIndex

/-- `effectsMap.count(effectId)`. -/
def mapCount (m : List (String × EffectPtr)) (key : String) : Nat :=
  if (m.lookup key).isSome then 1 else 0

/-- `EffectsManager::processEffectSettings`. -/
def processEffectSettings (init : InitFn) (json : JsonObject) (s : State) : Except Fault State :=
  let effectId := json.i
  if mapCount s.effectsMap effectId ≤ 0 then
    Except.ok (s.emit (Call.serialMissing effectId))
  else
    match deref (s.effectsMap.lookup effectId) with
    | Except.error f => Except.error f
    | Except.ok effect =>
      let s1 := { s with effects := s.effects ++ [effect] }
      Except.ok (initEffect init effect json s1)

/-- `EffectsManager::processAllEffects`. -/
def processAllEffects (s : State) : Except Fault State :=
  Except.ok { s with effects := s.effectsMap.foldl (fun acc effectPair => acc ++ [effectPair.2]) s.effects }

/-- `EffectsManager::loop`; `now` is the value of `millis()`. -/
def loop (now : Nat) (s : State) : Except Fault State :=
  if s.activeIndex ≥ s.effects.length then
    Except.ok s
  else
    match deref (activeEffect s) with
    | Except.error f => Except.error f
    | Except.ok effect =>
      if s.effectTimer ≠ 0 ∧
          (now + 4294967296 - s.effectTimer) % 4294967296 < (s.settings effect).speed then
        Except.ok s
      else
        let s1 := { s with effectTimer := now }
        match deref (activeEffect s1) with
        | Except.error f => Except.error f
        | Except.ok e => Except.ok (s1.emit (Call.effectProcess e))

/-- `EffectsManager::activateEffect(uint8_t index)`; `index` is the 8-bit value the
parameter holds, callers that pass a wider integer reduce it first. -/
def activateEffect (index : Nat) (s : State) : Except Fault State :=
  let index := if index ≥ s.effects.length then 0 else index
  let s1 := s.emit Call.matrixClear
  match deref (activeEffect s1) with
  | Except.error f => Except.error f
  | Except.ok old =>
    let s2 := s1.emit (Call.effectDeactivate old)
    let s3 := if s2.activeIndex ≠ index then { s2 with activeIndex := index } else s2
    match elemAt s3.effects index with
    | Except.error f => Except.error f
    | Except.ok effect =>
      let s4 := setBrightness (s3.settings effect).brightness s3
      let s5 := s4.emit (Call.serialActivating index (s4.settings effect).name)
      let s6 := s5.emit (Call.effectActivate effect)
      let s7 := s6.emit Call.mqttUpdate
      let s8 := s7.emit Call.webUpdate
      Except.ok (s8.emit Call.saveLater)

/-- `EffectsManager::next`. -/
def next (s : State) : Except Fault State :=
  match deref (activeEffect s) with
  | Except.error f => Except.error f
  | Except.ok cur =>
    let s1 := s.emit (Call.effectDeactivate cur)
    let s2 := s1.emit Call.matrixClear
    let s3 :=
      if s2.activeIndex = sizeMinusOne s2.effects.length then
        { s2 with activeIndex := 0 }
      else
        { s2 with activeIndex := (s2.activeIndex + 1) % 256 }
    activateEffect s3.activeIndex s3

/-- `EffectsManager::previous`. -/
def previous (s : State) : Except Fault State :=
  match deref (activeEffect s) with
  | Except.error f => Except.error f
  | Except.ok cur =>
    let s1 := s.emit (Call.effectDeactivate cur)
    let s2 := s1.emit Call.matrixClear
    let s3 :=
      if s2.activeIndex = 0 then
        { s2 with activeIndex := sizeMinusOne s2.effects.length % 256 }
      else
        { s2 with activeIndex := s2.activeIndex - 1 }
    activateEffect s3.activeIndex s3

/-- The scan of `changeEffectByName` and `changeEffectById`: `rest` is the part of the
vector from position `index` on; the first hit is activated (the `size_t` position is
converted to the `uint8_t` parameter) and ends the scan. -/
def changeLoop (hit : EffectPtr → Bool) : List EffectPtr → Nat → State → Except Fault State
  | [], _, s => Except.ok s
  | effect :: rest, index, s =>
    if hit effect then activateEffect (index % 256) s
    else changeLoop hit rest (index + 1) s

/-- `EffectsManager::changeEffectByName`. -/
def changeEffectByName (name : String) (s : State) : Except Fault State :=
  changeLoop (fun effect => (s.settings effect).name == name) s.effects 0 s

/-- `EffectsManager::changeEffectById`. -/
def changeEffectById (id : String) (s : State) : Except Fault State :=
  changeLoop (fun effect => (s.settings effect).id == id) s.effects 0 s

/-- `EffectsManager::updateCurrentSettings`. -/
def updateCurrentSettings (init : InitFn) (json : JsonObject) (s : State) : Except Fault State :=
  match deref (activeEffect s) with
  | Except.error f => Except.error f
  | Except.ok effect =>
    let s1 := initEffect init effect json s
    match deref (activeEffect s1) with
    | Except.error f => Except.error f
    | Except.ok e =>
      let s2 := setBrightness (s1.settings e).brightness s1
      Except.ok (s2.emit Call.saveLater)

/-- The scan of `updateSettingsById` over the part `rest` of the vector. -/
def updateLoop (init : InitFn) (id : String) (json : JsonObject) :
    List EffectPtr → State → Except Fault State
  | [], s => Except.ok s
  | effect :: rest, s =>
    if (s.settings effect).id == id then
      match elemAt s.effects s.activeIndex with
      | Except.error f => Except.error f
      | Except.ok cur =>
        if effect ≠ cur then
          match activateEffect s.activeIndex s with
          | Except.error f => Except.error f
          | Except.ok s1 => Except.ok (initEffect init effect json s1)
        else
          Except.ok (initEffect init effect json s)
    else updateLoop init id json rest s

/-- `EffectsManager::updateSettingsById`. -/
def updateSettingsById (init : InitFn) (id : String) (json : JsonObject) (s : State) :
    Except Fault State :=
  match updateLoop init id json s.effects s with
  | Except.error f => Except.error f
  | Except.ok s1 =>
    match deref (activeEffect s1) with
    | Except.error f => Except.error f
    | Except.ok e =>
      let s2 := setBrightness (s1.settings e).brightness s1
      Except.ok (s2.emit Call.saveLater)

/-- The effects that receive `deactivate()` in a sequence of calls, in order. -/
def deactivations (cs : List Call) : List EffectPtr :=
  cs.filterMap fun c => match c with
    | Call.effectDeactivate e => some e
    | _ => none

/-- The effects that receive `activate()` in a sequence of calls, in order. -/
def activations (cs : List Call) : List EffectPtr :=
  cs.filterMap fun c => match c with
    | Call.effectActivate e => some e
    | _ => none

/-- The `activeIndex` an operation ends with, when it completes. -/
def indexAfter (r : Except Fault State) : Option Nat :=
  match r with
  | Except.ok s => some s.activeIndex
  | Except.error _ => none

/-- Apply `next()` `n` times. -/
def nextTimes : Nat → State → Except Fault State
  | 0, s => Except.ok s
  | n + 1, s =>
    match next s with
    | Except.error f => Except.error f
    | Except.ok s1 => nextTimes n s1

/-- The manager's operations. -/
inductive Op where
  | processEffectSettings (json : JsonObject)
  | processAllEffects
  | loop (now : Nat)
  | next
  | previous
  | changeEffectByName (name : String)
  | changeEffectById (id : String)
  | activateEffect (index : Nat)
  | updateCurrentSettings (json : JsonObject)
  | updateSettingsById (id : String) (json : JsonObject)

/-- Run one operation. -/
def Op.run (init : InitFn) : Op → State → Except Fault State
  | Op.processEffectSettings json, s => GyverLamp.processEffectSettings init json s
  | Op.processAllEffects, s => GyverLamp.processAllEffects s
  | Op.loop now, s => GyverLamp.loop now s
  | Op.next, s => GyverLamp.next s
  | Op.previous, s => GyverLamp.previous s
  | Op.changeEffectByName name, s => GyverLamp.changeEffectByName name s
  | Op.changeEffectById id, s => GyverLamp.changeEffectById id s
  | Op.activateEffect index, s => GyverLamp.activateEffect index s
  | Op.updateCurrentSettings json, s => GyverLamp.updateCurrentSettings init json s
  | Op.updateSettingsById id json, s => GyverLamp.updateSettingsById init id json s

/-- States the manager reaches from construction through operations that complete. -/
inductive Reachable (init : InitFn) (registry : List (String × EffectPtr))
    (settings : EffectPtr → EffectSettings) (brightness : Nat) : State → Prop where
  | start : Reachable init registry settings brightness (initialState registry settings brightness)
  | step (op : Op) (s s1 : State) :
      Reachable init registry settings brightness s → op.run init s = Except.ok s1 →
      Reachable init registry settings brightness s1

/-! ## The button (`processButton` of `src/main.cpp`) -/

/-- What the button reports after `button->tick()`: the values of `isSingle()`,
`isDouble()`, `isTriple()`, `isHolded()`, `isStep()` and `isRelease()`. -/
structure ButtonTick where
  isSingle : Bool
  isDouble : Bool
  isTriple : Bool
  isHolded : Bool
  isStep : Bool
  isRelease : Bool
deriving DecidableEq, Repr

/-- The effects manager together with what `processButton` reads and writes:
`mySettings->buttonSettings.pin`, `mySettings->generalSettings.working` and the globals
`stepDirection` and `isHolding`. -/
structure Lamp where
  manager : State
  pin : Nat
  working : Bool
  stepDirection : Int
  isHolding : Bool

/-- The lamp at start-up: `stepDirection = 1`, `isHolding = false`. -/
def initialLamp (manager : State) (pin : Nat) (working : Bool) : Lamp :=
  { manager := manager, pin := pin, working := working, stepDirection := 1, isHolding := false }

/-- Record one collaborator call. -/
def Lamp.emit (l : Lamp) (c : Call) : Lamp :=
  { l with manager := l.manager.emit c }

/-- The read `uint8_t brightness = effectsManager->activeEffect()->settings.brightness`. -/
def readBrightness (l : Lamp) : Except Fault Nat :=
  match deref (activeEffect l.manager) with
  | Except.error f => Except.error f
  | Except.ok effect => Except.ok ((l.manager.settings effect).brightness % 256)

/-- The write `effectsManager->activeEffect()->settings.brightness = brightness`. -/
def writeBrightness (brightness : Nat) (l : Lamp) : Except Fault Lamp :=
  match deref (activeEffect l.manager) with
  | Except.error f => Except.error f
  | Except.ok effect =>
    Except.ok { l with manager := { l.manager with
      settings := Function.update l.manager.settings effect
        { l.manager.settings effect with brightness := brightness } } }

/-- The `isSingle()` branch. -/
def singleBranch (tick : ButtonTick) (l : Lamp) : Lamp :=
  if tick.isSingle then
    let l1 := l.emit (Call.serialText "Single button")
    let l2 := { l1 with working := !l1.working }
    l2.emit Call.saveLater
  else l

/-- The `isDouble()` branch. -/
def doubleBranch (tick : ButtonTick) (l : Lamp) : Except Fault Lamp :=
  if tick.isDouble then
    let l1 := l.emit (Call.serialText "Double button")
    match next l1.manager with
    | Except.error f => Except.error f
    | Except.ok m => Except.ok (Lamp.emit { l1 with manager := m } Call.saveLater)
  else Except.ok l

/-- The `isTriple()` branch. -/
def tripleBranch (tick : ButtonTick) (l : Lamp) : Except Fault Lamp :=
  if tick.isTriple then
    let l1 := l.emit (Call.serialText "Triple button")
    match previous l1.manager with
    | Except.error f => Except.error f
    | Except.ok m => Except.ok (Lamp.emit { l1 with manager := m } Call.saveLater)
  else Except.ok l

/-- The `isHolded()` branch. -/
def holdBranch (tick : ButtonTick) (l : Lamp) : Except Fault Lamp :=
  if tick.isHolded then
    let l1 := l.emit (Call.serialText "Holded button")
    let l2 := { l1 with isHolding := true }
    match readBrightness l2 with
    | Except.error f => Except.error f
    | Except.ok brightness =>
      if brightness ≤ 1 then Except.ok { l2 with stepDirection := 1 }
      else if brightness = 255 then Except.ok { l2 with stepDirection := -1 }
      else Except.ok l2
  else Except.ok l

/-- The `isHolding && isStep()` branch; the flag of the result tells that the branch
ended `processButton` with `return`. -/
def stepBranch (tick : ButtonTick) (l : Lamp) : Except Fault (Lamp × Bool) :=
  if l.isHolding && tick.isStep then
    match readBrightness l with
    | Except.error f => Except.error f
    | Except.ok brightness =>
      if l.stepDirection < 0 ∧ brightness = 1 then Except.ok (l, true)
      else if l.stepDirection > 0 ∧ brightness = 255 then Except.ok (l, true)
      else
        let brightness := (((brightness : Int) + l.stepDirection) % 256).toNat
        let l1 := l.emit (Call.serialStep l.stepDirection brightness)
        match writeBrightness brightness l1 with
        | Except.error f => Except.error f
        | Except.ok l2 =>
          let l3 := { l2 with manager := setBrightness brightness l2.manager }
          Except.ok (l3.emit Call.saveLater, false)
  else Except.ok (l, false)

/-- The `isRelease() && isHolding` branch. -/
def releaseBranch (tick : ButtonTick) (l : Lamp) : Lamp :=
  if tick.isRelease && l.isHolding then
    let l1 := l.emit (Call.serialText "Release button")
    let l2 := l1.emit Call.saveLater
    { l2 with isHolding := false }
  else l

/-- The function `processButton` of `main.cpp` for one report of the button. -/
def processButton (tick : ButtonTick) (l : Lamp) : Except Fault Lamp :=
  if l.pin = 0 then Except.ok l
  else
    let l1 := singleBranch tick l
    if !l1.working then Except.ok l1
    else
      match doubleBranch tick l1 with
      | Except.error f => Except.error f
      | Except.ok l2 =>
        match tripleBranch tick l2 with
        | Except.error f => Except.error f
        | Except.ok l3 =>
          match holdBranch tick l3 with
          | Except.error f => Except.error f
          | Except.ok l4 =>
            match stepBranch tick l4 with
            | Except.error f => Except.error f
            | Except.ok (l5, true) => Except.ok l5
            | Except.ok (l5, false) => Except.ok (releaseBranch tick l5)

/-- The lamp in which a running `processButton` reaches the `isHolded()` branch: after
the single, double and triple click branches. -/
def beforeHold (tick : ButtonTick) (l : Lamp) : Except Fault Lamp :=
  match doubleBranch tick (singleBranch tick l) with
  | Except.error f => Except.error f
  | Except.ok l2 => tripleBranch tick l2

/-- The lamp in which a running `processButton` reaches the `isHolding && isStep()` branch:
after the click branches and the `isHolded()` branch. -/
def beforeStep (tick : ButtonTick) (l : Lamp) : Except Fault Lamp :=
  match beforeHold tick l with
  | Except.error f => Except.error f
  | Except.ok l3 => holdBranch tick l3

/-- Run `processButton` once per report, in order. -/
def buttonTicks : List ButtonTick → Lamp → Except Fault Lamp
  | [], l => Except.ok l
  | tick :: rest, l =>
    match processButton tick l with
    | Except.error f => Except.error f
    | Except.ok l1 => buttonTicks rest l1

/-- A report with no gesture. -/
def idleTick : ButtonTick :=
  { isSingle := false, isDouble := false, isTriple := false, isHolded := false,
    isStep := false, isRelease := false }

/-- The report of a detected hold. -/
def holdTick : ButtonTick := { idleTick with isHolded := true }

/-- The report of one step while the button is held. -/
def stepTick : ButtonTick := { idleTick with isStep := true }

/-- The report of a release. -/
def releaseTick : ButtonTick := { idleTick with isRelease := true }

/-! ## The render bridge (`processMatrix32` and `processMatrixTask` of `src/main.cpp`) -/

/-- The block time handed to `ulTaskNotifyTake`: `pdMS_TO_TICKS(ms)` or `portMAX_DELAY`. -/
inductive BlockTime where
  | ticksOfMs (ms : Nat)
  | maxDelay
deriving DecidableEq, Repr

/-- Calls the bridge issues: `noInterrupts()`, `interrupts()`,
`xTaskGetCurrentTaskHandle()`, `xTaskNotifyGive(task)`,
`ulTaskNotifyTake(clearCount, block)` and `processMatrix()`. -/
inductive BridgeCall where
  | noInterrupts
  | interrupts
  | currentTaskHandle
  | notifyGive (task : Nat)
  | notifyTake (clearCount : Bool) (block : BlockTime)
  | processMatrix
deriving DecidableEq, Repr

/-- The globals `processMatrixTaskHandle` and `userTaskHandle` (0 is the null handle) and
the calls issued so far. -/
structure Bridge where
  processMatrixTaskHandle : Nat
  userTaskHandle : Nat
  calls : List BridgeCall

/-- The bridge once `setup()` has created the render task: its handle is stored, no
request is outstanding. -/
def startedBridge (renderTask : Nat) : Bridge :=
  { processMatrixTaskHandle := renderTask, userTaskHandle := 0, calls := [] }

/-- Record one call. -/
def Bridge.emit (b : Bridge) (c : BridgeCall) : Bridge :=
  { b with calls := b.calls ++ [c] }

/-- The body of the `if` of `processMatrix32` up to and including the call of
`ulTaskNotifyTake`, in which the calling task `current` is suspended. -/
def bridgeEnter (current : Nat) (b : Bridge) : Bridge :=
  let b1 := b.emit BridgeCall.noInterrupts
  let b2 := { b1.emit BridgeCall.currentTaskHandle with userTaskHandle := current }
  let b3 := b2.emit (BridgeCall.notifyGive b2.processMatrixTaskHandle)
  b3.emit (BridgeCall.notifyTake true (BlockTime.ticksOfMs 200))

/-- The body of the `if` of `processMatrix32` from the return of `ulTaskNotifyTake` on;
`taken` is the value returned, 0 after a timeout. The code does not look at it. -/
def bridgeLeave (_taken : Nat) (b : Bridge) : Bridge :=
  let b1 := b.emit BridgeCall.interrupts
  { b1 with userTaskHandle := 0 }

/-- The function `processMatrix32`, called by the task `current`; `taken` is what
`ulTaskNotifyTake` returns. -/
def processMatrix32 (current taken : Nat) (b : Bridge) : Bridge :=
  if b.userTaskHandle = 0 then bridgeLeave taken (bridgeEnter current b) else b

/-- One round of the endless loop of `processMatrixTask`. -/
def processMatrixTask (b : Bridge) : Bridge :=
  let b1 := b.emit (BridgeCall.notifyTake true BlockTime.maxDelay)
  let b2 := b1.emit BridgeCall.processMatrix
  b2.emit (BridgeCall.notifyGive b2.userTaskHandle)

/-- What can happen next at the bridge: a task calls `processMatrix32` and runs to its
wait (or through the whole call when the guard fails), the waiting call comes back from
`ulTaskNotifyTake`, or the render task runs one round. -/
inductive BridgeEvent where
  | enter (current : Nat)
  | resume (taken : Nat)
  | render
deriving DecidableEq, Repr

/-- The bridge after one event. -/
def bridgeStep : BridgeEvent → Bridge → Bridge
  | BridgeEvent.enter current, b => if b.userTaskHandle = 0 then bridgeEnter current b else b
  | BridgeEvent.resume taken, b => if b.userTaskHandle = 0 then b else bridgeLeave taken b
  | BridgeEvent.render, b => processMatrixTask b

/-- The bridge after a sequence of events. -/
def bridgeRun : List BridgeEvent → Bridge → Bridge
  | [], b => b
  | ev :: rest, b => bridgeRun rest (bridgeStep ev b)

/-- Requests in flight: notifications sent to the render task whose caller has not yet
left its wait (every request ends with `interrupts()`). -/
def requestsInFlight (b : Bridge) : Nat :=
  b.calls.count (BridgeCall.notifyGive b.processMatrixTaskHandle) -
    b.calls.count BridgeCall.interrupts

/-! ## Runs of `loop()` -/

/-- Call `loop()` at each of the given times in turn and collect the times at which
`Process()` was invoked (the calls in which the trace grew). -/
def processTimes : List Nat → State → List Nat
  | [], _ => []
  | now :: rest, s =>
    match loop now s with
    | Except.error _ => []
    | Except.ok s1 =>
      if s1.calls.length > s.calls.length then now :: processTimes rest s1
      else processTimes rest s1

/-- The inductive form of the range invariant: `activeIndex` is a position of the enabled
list, or the list is empty and `activeIndex` is still 0. -/
def Valid (s : State) : Prop :=
  s.activeIndex < s.effects.length ∨ (s.effects = [] ∧ s.activeIndex = 0)

/-! ## The states the operations end in -/

/-- The index `activateEffect` works with after its range check. -/
def clampIndex (index : Nat) (s : State) : Nat :=
  if index ≥ s.effects.length then 0 else index

/-- The state `activateEffect` ends in: `old` received `deactivate()`, `effect` is the
entry at position `index`. -/
def activated (index : Nat) (old effect : EffectPtr) (s : State) : State :=
  { s with
    activeIndex := index,
    brightness := (s.settings effect).brightness,
    calls := s.calls ++ [Call.matrixClear, Call.effectDeactivate old,
      Call.matrixSetBrightness (s.settings effect).brightness,
      Call.serialActivating index (s.settings effect).name,
      Call.effectActivate effect, Call.mqttUpdate, Call.webUpdate, Call.saveLater] }

/-- The index `next()` hands to `activateEffect`. -/
def nextIndex (s : State) : Nat :=
  if s.activeIndex = sizeMinusOne s.effects.length then 0 else (s.activeIndex + 1) % 256

/-- The index `previous()` hands to `activateEffect`. -/
def previousIndex (s : State) : Nat :=
  if s.activeIndex = 0 then sizeMinusOne s.effects.length % 256 else s.activeIndex - 1

/-- The state in which `next()` and `previous()` call `activateEffect`. -/
def advanced (index : Nat) (cur : EffectPtr) (s : State) : State :=
  { s with activeIndex := index,
           calls := s.calls ++ [Call.effectDeactivate cur, Call.matrixClear] }

/-- The lamp after a brightness step of `processButton` that stores `brightness` in the
active effect `e` and in the matrix. -/
def stepped (brightness : Nat) (e : EffectPtr) (l : Lamp) : Lamp :=
  { l with manager := { l.manager with
      settings := Function.update l.manager.settings e
        { l.manager.settings e with brightness := brightness },
      brightness := brightness,
      calls := l.manager.calls ++ [Call.serialStep l.stepDirection brightness,
        Call.matrixSetBrightness brightness, Call.saveLater] } }

/-- The brightness a step computes: `brightness += stepDirection` on a `uint8_t`. -/
def stepValue (brightness : Nat) (direction : Int) : Nat :=
  (((brightness : Int) + direction) % 256).toNat

/-- The calls recorded when an operation of the manager completes. -/
def callsOf (r : Except Fault State) : Option (List Call) :=
  match r with
  | Except.ok s => some s.calls
  | Except.error _ => none

/-- The holding flag and the recorded calls after `processButton`, when it completes. -/
def holdingAndCalls (r : Except Fault Lamp) : Option (Bool × List Call) :=
  match r with
  | Except.ok l => some (l.isHolding, l.manager.calls)
  | Except.error _ => none

/-- The stored brightness of the effect `e` and the brightness held by the matrix after
`processButton`, when it completes. -/
def storedAndLive (e : EffectPtr) (r : Except Fault Lamp) : Option (Nat × Nat) :=
  match r with
  | Except.ok l => some ((l.manager.settings e).brightness, l.manager.brightness)
  | Except.error _ => none

/-! ## Concrete states -/

/-- Settings of the three effects of the scenario; every other handle is a copy of Sparkles. -/
def demoSettings : EffectPtr → EffectSettings
  | 1 => { id := "Fire", name := "Fire", brightness := 120, speed := 30 }
  | 2 => { id := "Matrix", name := "Matrix", brightness := 90, speed := 50 }
  | _ => { id := "Sparkles", name := "Sparkles", brightness := 80, speed := 60 }

/-- A registry holding the three effects, in the order the map enumerates its keys. -/
def demoRegistry : List (String × EffectPtr) :=
  [("Fire", 1), ("Matrix", 2), ("Sparkles", 0)]

/-- Enabled list `[Sparkles, Fire, Matrix]`, Sparkles active. -/
def demoState : State :=
  { effectsMap := demoRegistry, effects := [0, 1, 2], activeIndex := 0, effectTimer := 0,
    settings := demoSettings, brightness := 80, calls := [] }

/-- An effect that copies the brightness member of the record, when there is one. -/
def demoInit : InitFn := fun _ json old =>
  match json.fields.lookup "brightness" with
  | some b => { old with brightness := b % 256 }
  | none => old

/-- Settings of a registry of two effects: handle 1 is "Last", handle 0 (and any other
handle) is "Fill". -/
def wideSettings : EffectPtr → EffectSettings := fun e =>
  if e = 1 then { id := "Last", name := "Last", brightness := 50, speed := 30 }
  else { id := "Fill", name := "Fill", brightness := 80, speed := 60 }

/-- An enabled list of 257 entries, "Fill" enabled 256 times and then "Last", with the
given active position. -/
def wideState (active : Nat) : State :=
  { effectsMap := [("Fill", 0), ("Last", 1)], effects := List.replicate 256 0 ++ [1],
    activeIndex := active, effectTimer := 0, settings := wideSettings, brightness := 80,
    calls := [] }

/-- All three effects enabled in registry order `[Fire, Matrix, Sparkles]`. -/
def demoEnabled : State :=
  { initialState demoRegistry demoSettings 80 with effects := [1, 2, 0] }

/-- The state after `previous()` on `demoEnabled`: Sparkles, at position 2, is active. -/
def demoReached : State :=
  activated 2 0 0 (advanced 2 1 demoEnabled)

/-- The scenario with the button: running, button on pin 15, Sparkles active. -/
def demoLamp : Lamp :=
  initialLamp demoState 15 true

/-- The scenario with the stored brightness of every effect set to `b`. -/
def rampLamp (b : Nat) : Lamp :=
  initialLamp { demoState with settings := fun e => { demoSettings e with brightness := b } }
    15 true

/-- The scenario paused (for instance over the web interface) while the button is held. -/
def pausedHolding : Lamp :=
  { demoLamp with working := false, isHolding := true }

/-- The scenario during an upward ramp that has reached brightness 255. -/
def rampAtTop : Lamp :=
  { rampLamp 255 with isHolding := true }

/-- A report of a step and a release at once. -/
def stepReleaseTick : ButtonTick :=
  { idleTick with isStep := true, isRelease := true }

/-- The scenario during a downward ramp with the stored brightness set to 0. -/
def rampBelowFloor : Lamp :=
  { rampLamp 0 with isHolding := true, stepDirection := -1 }

/-! ## Lemmas on `activateEffect`, `next` and `previous` -/


theorem activeEffect_eq_some (s : State) (e : EffectPtr)
    (h : s.effects[s.activeIndex]? = some e) : activeEffect s = some e := by
  have hlt : s.activeIndex < s.effects.length := by
    rcases List.getElem?_eq_some.1 h with ⟨hlt, _⟩
    exact hlt
  simp [activeEffect, hlt, h]

theorem activateEffect_eq (s : State) (index : Nat) (old effect : EffectPtr)
    (hold : s.effects[s.activeIndex]? = some old)
    (hnew : s.effects[clampIndex index s]? = some effect) :
    activateEffect index s = Except.ok (activated (clampIndex index s) old effect s) := by
  have hact : activeEffect (s.emit Call.matrixClear) = some old :=
    activeEffect_eq_some _ _ (by simpa [State.emit] using hold)
  unfold clampIndex at hnew
  unfold activateEffect
  simp only [hact, deref]
  by_cases hc : s.activeIndex = (if index ≥ s.effects.length then 0 else index)
  · simp [State.emit, elemAt, hnew, setBrightness, activated, clampIndex, hc]
  · simp [State.emit, elemAt, hnew, setBrightness, activated, clampIndex, hc]

theorem getElem_some_of_lt (l : List EffectPtr) (i : Nat) (h : i < l.length) :
    ∃ e, l[i]? = some e := ⟨l[i], List.getElem?_eq_getElem h⟩

theorem clampIndex_of_lt (s : State) (index : Nat) (h : index < s.effects.length) :
    clampIndex index s = index := by
  simp [clampIndex, h]

theorem clampIndex_lt (s : State) (index : Nat) (h : 0 < s.effects.length) :
    clampIndex index s < s.effects.length := by
  unfold clampIndex
  split <;> omega

theorem next_eq (s : State) (cur : EffectPtr) (h : s.effects[s.activeIndex]? = some cur) :
    next s = activateEffect (nextIndex s) (advanced (nextIndex s) cur s) := by
  unfold next
  rw [activeEffect_eq_some s cur h]
  simp only [deref, State.emit, nextIndex, advanced]
  split <;> simp

theorem previous_eq (s : State) (cur : EffectPtr) (h : s.effects[s.activeIndex]? = some cur) :
    previous s = activateEffect (previousIndex s) (advanced (previousIndex s) cur s) := by
  unfold previous
  rw [activeEffect_eq_some s cur h]
  simp only [deref, State.emit, previousIndex, advanced]
  split <;> simp

theorem nextIndex_lt (s : State) (h : s.activeIndex < s.effects.length) :
    nextIndex s < s.effects.length := by
  unfold nextIndex sizeMinusOne
  split <;> omega

theorem previousIndex_lt (s : State) (h : s.activeIndex < s.effects.length) :
    previousIndex s < s.effects.length := by
  unfold previousIndex sizeMinusOne
  split <;> omega

theorem next_ok (s : State) (h : s.activeIndex < s.effects.length) :
    ∃ cur new, s.effects[s.activeIndex]? = some cur ∧ s.effects[nextIndex s]? = some new ∧
      next s = Except.ok (activated (nextIndex s) new new (advanced (nextIndex s) cur s)) := by
  obtain ⟨cur, hcur⟩ := getElem_some_of_lt s.effects _ h
  obtain ⟨new, hnew⟩ := getElem_some_of_lt s.effects _ (nextIndex_lt s h)
  refine ⟨cur, new, hcur, hnew, ?_⟩
  rw [next_eq s cur hcur]
  have hc : clampIndex (nextIndex s) (advanced (nextIndex s) cur s) = nextIndex s :=
    clampIndex_of_lt _ _ (nextIndex_lt s h)
  have := activateEffect_eq (advanced (nextIndex s) cur s) (nextIndex s) new new
    (by simpa [advanced] using hnew) (by rw [hc]; simpa [advanced] using hnew)
  rw [this, hc]

theorem previous_ok (s : State) (h : s.activeIndex < s.effects.length) :
    ∃ cur new, s.effects[s.activeIndex]? = some cur ∧ s.effects[previousIndex s]? = some new ∧
      previous s =
        Except.ok (activated (previousIndex s) new new (advanced (previousIndex s) cur s)) := by
  obtain ⟨cur, hcur⟩ := getElem_some_of_lt s.effects _ h
  obtain ⟨new, hnew⟩ := getElem_some_of_lt s.effects _ (previousIndex_lt s h)
  refine ⟨cur, new, hcur, hnew, ?_⟩
  rw [previous_eq s cur hcur]
  have hc : clampIndex (previousIndex s) (advanced (previousIndex s) cur s) = previousIndex s :=
    clampIndex_of_lt _ _ (previousIndex_lt s h)
  have := activateEffect_eq (advanced (previousIndex s) cur s) (previousIndex s) new new
    (by simpa [advanced] using hnew) (by rw [hc]; simpa [advanced] using hnew)
  rw [this, hc]

theorem nextIndex_small (s : State) (h : s.activeIndex < s.effects.length)
    (hlen : s.effects.length ≤ 256) :
    nextIndex s = (s.activeIndex + 1) % s.effects.length := by
  unfold nextIndex sizeMinusOne
  split
  · next heq =>
    have : s.activeIndex + 1 = s.effects.length := by omega
    rw [this, Nat.mod_self]
  · next hne =>
    have hlt : s.activeIndex + 1 < s.effects.length := by omega
    rw [Nat.mod_eq_of_lt hlt]
    omega

theorem previousIndex_small (s : State) (h : s.activeIndex < s.effects.length)
    (hlen : s.effects.length ≤ 256) :
    previousIndex s = (s.activeIndex + s.effects.length - 1) % s.effects.length := by
  unfold previousIndex sizeMinusOne
  split
  · next heq =>
    have hlt : s.activeIndex + s.effects.length - 1 < s.effects.length := by omega
    rw [Nat.mod_eq_of_lt hlt]
    omega
  · next hne =>
    have : s.activeIndex + s.effects.length - 1 = (s.activeIndex - 1) + s.effects.length := by
      omega
    rw [this, Nat.add_mod_right, Nat.mod_eq_of_lt (by omega)]

theorem next_index_small (s : State) (hactive : s.activeIndex < s.effects.length)
    (hlen : s.effects.length ≤ 256) :
    ∃ s1, next s = Except.ok s1 ∧
      s1.activeIndex = (s.activeIndex + 1) % s.effects.length ∧ s1.effects = s.effects := by
  obtain ⟨cur, new, _, _, h⟩ := next_ok s hactive
  exact ⟨_, h, by simp [activated, advanced, nextIndex_small s hactive hlen],
    by simp [activated, advanced]⟩

theorem previous_index_small (s : State) (hactive : s.activeIndex < s.effects.length)
    (hlen : s.effects.length ≤ 256) :
    ∃ s1, previous s = Except.ok s1 ∧
      s1.activeIndex = (s.activeIndex + s.effects.length - 1) % s.effects.length ∧
      s1.effects = s.effects := by
  obtain ⟨cur, new, _, _, h⟩ := previous_ok s hactive
  exact ⟨_, h, by simp [activated, advanced, previousIndex_small s hactive hlen],
    by simp [activated, advanced]⟩

theorem nextTimes_index_small (k : Nat) (s : State)
    (hactive : s.activeIndex < s.effects.length) (hlen : s.effects.length ≤ 256) :
    ∃ s1, nextTimes k s = Except.ok s1 ∧
      s1.activeIndex = (s.activeIndex + k) % s.effects.length ∧ s1.effects = s.effects := by
  induction k generalizing s with
  | zero => exact ⟨s, rfl, by simp [Nat.mod_eq_of_lt hactive], rfl⟩
  | succ n ih =>
    obtain ⟨s1, h1, hidx, heff⟩ := next_index_small s hactive hlen
    have hpos : 0 < s.effects.length := by omega
    have hact1 : s1.activeIndex < s1.effects.length := by
      rw [hidx, heff]; exact Nat.mod_lt _ hpos
    obtain ⟨s2, h2, hidx2, heff2⟩ := ih s1 hact1 (by rw [heff]; exact hlen)
    refine ⟨s2, by simp [nextTimes, h1, h2], ?_, by rw [heff2, heff]⟩
    rw [hidx2, hidx, heff, Nat.mod_add_mod]
    congr 1
    omega

/-! ## Every operation keeps `activeIndex` in range -/

theorem activeEffect_eq_none (s : State) (h : ¬ s.activeIndex < s.effects.length) :
    activeEffect s = none := by
  simp [activeEffect, h]

theorem activateEffect_ok_bound (index : Nat) (s s1 : State)
    (h : activateEffect index s = Except.ok s1) :
    s1.effects = s.effects ∧ s1.activeIndex < s.effects.length := by
  by_cases hlt : s.activeIndex < s.effects.length
  · obtain ⟨old, hold⟩ := getElem_some_of_lt s.effects _ hlt
    have hc := clampIndex_lt s index (by omega)
    obtain ⟨new, hnew⟩ := getElem_some_of_lt s.effects _ hc
    rw [activateEffect_eq s index old new hold hnew] at h
    injection h with h
    subst h
    exact ⟨rfl, hc⟩
  · have hnone : activeEffect (s.emit Call.matrixClear) = none :=
      activeEffect_eq_none _ (by simpa [State.emit] using hlt)
    unfold activateEffect at h
    simp [hnone, deref] at h

theorem next_ok_bound (s s1 : State) (h : next s = Except.ok s1) :
    s1.effects = s.effects ∧ s1.activeIndex < s.effects.length := by
  by_cases hlt : s.activeIndex < s.effects.length
  · obtain ⟨cur, hcur⟩ := getElem_some_of_lt s.effects _ hlt
    rw [next_eq s cur hcur] at h
    simpa [advanced] using activateEffect_ok_bound _ _ _ h
  · unfold next at h
    simp [activeEffect_eq_none s hlt, deref] at h

theorem previous_ok_bound (s s1 : State) (h : previous s = Except.ok s1) :
    s1.effects = s.effects ∧ s1.activeIndex < s.effects.length := by
  by_cases hlt : s.activeIndex < s.effects.length
  · obtain ⟨cur, hcur⟩ := getElem_some_of_lt s.effects _ hlt
    rw [previous_eq s cur hcur] at h
    simpa [advanced] using activateEffect_ok_bound _ _ _ h
  · unfold previous at h
    simp [activeEffect_eq_none s hlt, deref] at h

theorem changeLoop_ok_bound (hit : EffectPtr → Bool) (rest : List EffectPtr) (index : Nat)
    (s s1 : State) (h : changeLoop hit rest index s = Except.ok s1) :
    s1 = s ∨ (s1.effects = s.effects ∧ s1.activeIndex < s.effects.length) := by
  induction rest generalizing index with
  | nil =>
    simp only [changeLoop] at h
    injection h with h
    exact Or.inl h.symm
  | cons effect rest ih =>
    simp only [changeLoop] at h
    split at h
    · exact Or.inr (activateEffect_ok_bound _ _ _ h)
    · exact ih _ h

theorem updateLoop_ok_bound (init : InitFn) (id : String) (json : JsonObject)
    (rest : List EffectPtr) (s s1 : State) (h : updateLoop init id json rest s = Except.ok s1) :
    s1.effects = s.effects ∧
      (s1.activeIndex = s.activeIndex ∨ s1.activeIndex < s.effects.length) := by
  induction rest with
  | nil =>
    simp only [updateLoop] at h
    injection h with h
    subst h
    exact ⟨rfl, Or.inl rfl⟩
  | cons effect rest ih =>
    simp only [updateLoop] at h
    split at h
    · split at h
      · exact absurd h (by simp)
      · split at h
        · split at h
          · exact absurd h (by simp)
          · next s2 hs2 =>
            injection h with h
            subst h
            have := activateEffect_ok_bound _ _ _ hs2
            exact ⟨by simpa [initEffect] using this.1,
              Or.inr (by simpa [initEffect] using this.2)⟩
        · injection h with h
          subst h
          exact ⟨rfl, Or.inl rfl⟩
    · exact ih h

theorem updateSettingsById_ok_bound (init : InitFn) (id : String) (json : JsonObject)
    (s s1 : State) (h : updateSettingsById init id json s = Except.ok s1) :
    s1.effects = s.effects ∧
      (s1.activeIndex = s.activeIndex ∨ s1.activeIndex < s.effects.length) := by
  unfold updateSettingsById at h
  split at h
  · exact absurd h (by simp)
  · next s2 hs2 =>
    split at h
    · exact absurd h (by simp)
    · injection h with h
      subst h
      simpa [State.emit, setBrightness] using updateLoop_ok_bound _ _ _ _ _ _ hs2

theorem updateCurrentSettings_ok_bound (init : InitFn) (json : JsonObject)
    (s s1 : State) (h : updateCurrentSettings init json s = Except.ok s1) :
    s1.effects = s.effects ∧ s1.activeIndex = s.activeIndex := by
  unfold updateCurrentSettings at h
  split at h
  · exact absurd h (by simp)
  · simp only at h
    split at h
    · exact absurd h (by simp)
    · injection h with h
      subst h
      simp [State.emit, setBrightness, initEffect]

theorem loop_ok_bound (now : Nat) (s s1 : State) (h : loop now s = Except.ok s1) :
    s1.effects = s.effects ∧ s1.activeIndex = s.activeIndex := by
  unfold loop at h
  split at h
  · injection h with h
    subst h
    exact ⟨rfl, rfl⟩
  · split at h
    · exact absurd h (by simp)
    · split at h
      · injection h with h
        subst h
        exact ⟨rfl, rfl⟩
      · simp only at h
        split at h
        · exact absurd h (by simp)
        · injection h with h
          subst h
          simp [State.emit]

theorem foldl_push_eq (m : List (String × EffectPtr)) (acc : List EffectPtr) :
    m.foldl (fun acc effectPair => acc ++ [effectPair.2]) acc = acc ++ m.map Prod.snd := by
  induction m generalizing acc with
  | nil => simp
  | cons p m ih => simp [ih]

theorem processAllEffects_eq (s : State) :
    processAllEffects s =
      Except.ok { s with effects := s.effects ++ s.effectsMap.map Prod.snd } := by
  simp [processAllEffects, foldl_push_eq]

theorem processEffectSettings_ok_bound (init : InitFn) (json : JsonObject)
    (s s1 : State) (h : processEffectSettings init json s = Except.ok s1) :
    s1.activeIndex = s.activeIndex ∧
      (s1.effects = s.effects ∨ ∃ effect, s1.effects = s.effects ++ [effect]) := by
  unfold processEffectSettings at h
  simp only at h
  split at h
  · injection h with h
    subst h
    exact ⟨rfl, Or.inl rfl⟩
  · split at h
    · exact absurd h (by simp)
    · next effect _ =>
      injection h with h
      subst h
      exact ⟨rfl, Or.inr ⟨effect, rfl⟩⟩

theorem valid_step (init : InitFn) (op : Op) (s s1 : State) (hv : Valid s)
    (h : op.run init s = Except.ok s1) : Valid s1 := by
  unfold Valid at *
  cases op with
  | processEffectSettings json =>
    obtain ⟨hidx, heff⟩ := processEffectSettings_ok_bound init json s s1 h
    rcases heff with heff | ⟨effect, heff⟩
    · rw [hidx, heff]; exact hv
    · left
      rw [hidx, heff, List.length_append]
      rcases hv with hv | ⟨_, hz⟩
      · simp; omega
      · simp [hz]
  | processAllEffects =>
    have h2 := processAllEffects_eq s
    simp only [Op.run] at h
    rw [h2] at h
    injection h with h
    subst h
    rcases hv with hv | ⟨he, hz⟩
    · left; simp; omega
    · simp only [he, hz, List.nil_append]
      rcases Nat.eq_zero_or_pos (s.effectsMap.map Prod.snd).length with h0 | hpos
      · right; exact ⟨List.length_eq_zero.1 h0, trivial⟩
      · left; exact hpos
  | loop now =>
    obtain ⟨heff, hidx⟩ := loop_ok_bound now s s1 h
    rw [heff, hidx]; exact hv
  | next =>
    obtain ⟨heff, hidx⟩ := next_ok_bound s s1 h
    left; rw [heff]; exact hidx
  | previous =>
    obtain ⟨heff, hidx⟩ := previous_ok_bound s s1 h
    left; rw [heff]; exact hidx
  | changeEffectByName name =>
    rcases changeLoop_ok_bound _ _ _ _ _ h with heq | ⟨heff, hidx⟩
    · rw [heq]; exact hv
    · left; rw [heff]; exact hidx
  | changeEffectById id =>
    rcases changeLoop_ok_bound _ _ _ _ _ h with heq | ⟨heff, hidx⟩
    · rw [heq]; exact hv
    · left; rw [heff]; exact hidx
  | activateEffect index =>
    obtain ⟨heff, hidx⟩ := activateEffect_ok_bound index s s1 h
    left; rw [heff]; exact hidx
  | updateCurrentSettings json =>
    obtain ⟨heff, hidx⟩ := updateCurrentSettings_ok_bound init json s s1 h
    rw [heff, hidx]; exact hv
  | updateSettingsById id json =>
    obtain ⟨heff, hidx⟩ := updateSettingsById_ok_bound init id json s s1 h
    rw [heff]
    rcases hidx with hidx | hidx
    · rw [hidx]; exact hv
    · left; exact hidx

theorem valid_of_reachable (init : InitFn) (registry : List (String × EffectPtr))
    (settings : EffectPtr → EffectSettings) (brightness : Nat) (s : State)
    (h : Reachable init registry settings brightness s) : Valid s := by
  induction h with
  | start => exact Or.inr ⟨rfl, rfl⟩
  | step op s s1 _ hrun ih => exact valid_step init op s s1 ih hrun

theorem demoReached_reachable :
    Reachable demoInit demoRegistry demoSettings 80 demoReached :=
  Reachable.step Op.previous demoEnabled demoReached
    (Reachable.step Op.processAllEffects (initialState demoRegistry demoSettings 80)
      demoEnabled Reachable.start rfl)
    rfl

/-! ## Lookup by name and by id -/

theorem changeLoop_no_hit (hit : EffectPtr → Bool) (rest : List EffectPtr) (index : Nat)
    (s : State) (h : ∀ effect ∈ rest, hit effect = false) :
    changeLoop hit rest index s = Except.ok s := by
  induction rest generalizing index with
  | nil => rfl
  | cons effect rest ih =>
    have h0 : hit effect = false := h effect (List.mem_cons_self _ _)
    simp only [changeLoop, h0]
    exact ih (index + 1) (fun e he => h e (List.mem_cons_of_mem _ he))

theorem changeLoop_first_hit (hit : EffectPtr → Bool) (rest : List EffectPtr)
    (index pos : Nat) (s : State) (effect : EffectPtr)
    (hpos : rest[pos]? = some effect) (hhit : hit effect = true)
    (hmin : ∀ q e, q < pos → rest[q]? = some e → hit e = false) :
    changeLoop hit rest index s = activateEffect ((index + pos) % 256) s := by
  induction rest generalizing index pos with
  | nil => simp at hpos
  | cons head rest ih =>
    cases pos with
    | zero =>
      simp only [List.getElem?_cons_zero, Option.some.injEq] at hpos
      subst hpos
      simp [changeLoop, hhit]
    | succ p =>
      have h0 : hit head = false := hmin 0 head (by omega) (by simp)
      simp only [List.getElem?_cons_succ] at hpos
      simp only [changeLoop, h0]
      rw [ih (index + 1) p hpos (fun q e hq he => hmin (q + 1) e (by omega) (by simpa using he))]
      have hadd : index + 1 + p = index + (p + 1) := by omega
      rw [hadd]
      simp

theorem lookup_none_of_not_key (m : List (String × EffectPtr)) (key : String)
    (h : key ∉ m.map Prod.fst) : m.lookup key = none := by
  induction m with
  | nil => rfl
  | cons p m ih =>
    obtain ⟨k, v⟩ := p
    simp only [List.map_cons, List.mem_cons, not_or] at h
    have hne : (key == k) = false := by simpa using h.1
    simp only [List.lookup, hne]
    exact ih h.2

/-! ## Settings updates and the frame gate -/

theorem getElem_of_activeEffect (s : State) (e : EffectPtr) (h : activeEffect s = some e) :
    s.effects[s.activeIndex]? = some e := by
  unfold activeEffect at h
  split at h
  · exact h
  · exact absurd h (by simp)

theorem updateLoop_first_hit (init : InitFn) (id : String) (json : JsonObject)
    (rest : List EffectPtr) (pos : Nat) (s : State) (target : EffectPtr)
    (hpos : rest[pos]? = some target) (hid : (s.settings target).id = id)
    (hmin : ∀ q e, q < pos → rest[q]? = some e → (s.settings e).id ≠ id) :
    updateLoop init id json rest s = updateLoop init id json [target] s := by
  induction rest generalizing pos with
  | nil => simp at hpos
  | cons head rest ih =>
    cases pos with
    | zero =>
      simp only [List.getElem?_cons_zero, Option.some.injEq] at hpos
      subst hpos
      simp [updateLoop, hid]
    | succ p =>
      have h0 : (s.settings head).id ≠ id := hmin 0 head (by omega) (by simp)
      simp only [List.getElem?_cons_succ] at hpos
      have hstep : updateLoop init id json (head :: rest) s = updateLoop init id json rest s := by
        simp [updateLoop, h0]
      rw [hstep]
      exact ih p hpos (fun q e hq he => hmin (q + 1) e (by omega) (by simpa using he))

theorem updateLoop_other (init : InitFn) (id : String) (json : JsonObject) (s : State)
    (active target : EffectPtr) (hactive : s.effects[s.activeIndex]? = some active)
    (hid : (s.settings target).id = id) (hne : target ≠ active) :
    updateLoop init id json [target] s =
      Except.ok (initEffect init target json (activated s.activeIndex active active s)) := by
  have hlt : s.activeIndex < s.effects.length := (List.getElem?_eq_some.1 hactive).1
  have hc : clampIndex s.activeIndex s = s.activeIndex := clampIndex_of_lt s _ hlt
  have hact := activateEffect_eq s s.activeIndex active active hactive (by rw [hc]; exact hactive)
  rw [hc] at hact
  simp [updateLoop, hid, elemAt, hactive, hne, hact]

/-- Whether the frame gate of `loop()` lets a frame through at time `now`. -/
theorem loop_eq (now : Nat) (s : State) (e : EffectPtr) (h : activeEffect s = some e) :
    loop now s =
      if s.effectTimer ≠ 0 ∧
          (now + 4294967296 - s.effectTimer) % 4294967296 < (s.settings e).speed then
        Except.ok s
      else
        Except.ok { s with effectTimer := now, calls := s.calls ++ [Call.effectProcess e] } := by
  have hget := getElem_of_activeEffect s e h
  have hlt : s.activeIndex < s.effects.length := (List.getElem?_eq_some.1 hget).1
  have h1 : activeEffect { s with effectTimer := now } = some e :=
    activeEffect_eq_some _ _ (by simpa using hget)
  unfold loop
  simp only [h, h1, deref, State.emit]
  split
  · omega
  · rfl

theorem updateCurrentSettings_eq (init : InitFn) (json : JsonObject) (s : State)
    (e : EffectPtr) (h : activeEffect s = some e) :
    updateCurrentSettings init json s = Except.ok
      ((setBrightness ((initEffect init e json s).settings e).brightness
        (initEffect init e json s)).emit Call.saveLater) := by
  have h1 : activeEffect (initEffect init e json s) = some e :=
    activeEffect_eq_some _ _ (by simpa [initEffect] using getElem_of_activeEffect s e h)
  simp only [updateCurrentSettings, h, h1, deref]

theorem updateSettingsById_eq (init : InitFn) (id : String) (json : JsonObject)
    (s s1 : State) (active : EffectPtr)
    (hloop : updateLoop init id json s.effects s = Except.ok s1)
    (h1 : activeEffect s1 = some active) :
    updateSettingsById init id json s = Except.ok
      ((setBrightness (s1.settings active).brightness s1).emit Call.saveLater) := by
  simp only [updateSettingsById, hloop, h1, deref]

theorem processTimes_cons (now : Nat) (rest : List Nat) (s : State) (e : EffectPtr)
    (h : activeEffect s = some e) :
    processTimes (now :: rest) s =
      if s.effectTimer ≠ 0 ∧
          (now + 4294967296 - s.effectTimer) % 4294967296 < (s.settings e).speed then
        processTimes rest s
      else
        now :: processTimes rest
          { s with effectTimer := now, calls := s.calls ++ [Call.effectProcess e] } := by
  by_cases hgate : s.effectTimer ≠ 0 ∧
      (now + 4294967296 - s.effectTimer) % 4294967296 < (s.settings e).speed
  · simp only [processTimes, loop_eq now s e h, if_pos hgate]
    simp
  · simp only [processTimes, loop_eq now s e h, if_neg hgate]
    simp

theorem activeEffect_after_frame (now : Nat) (s : State) (e : EffectPtr)
    (h : activeEffect s = some e) :
    activeEffect { s with effectTimer := now, calls := s.calls ++ [Call.effectProcess e] }
      = some e :=
  activeEffect_eq_some _ _ (by simpa using getElem_of_activeEffect s e h)

theorem processTimes_head (times : List Nat) (s : State) (e : EffectPtr)
    (h : activeEffect s = some e)
    (hbound : ∀ t ∈ times, s.effectTimer ≤ t ∧ t < 4294967296) (t2 : Nat)
    (hhead : (processTimes times s).head? = some t2) (hrec : s.effectTimer ≠ 0) :
    (s.settings e).speed ≤ t2 - s.effectTimer := by
  induction times with
  | nil => simp [processTimes] at hhead
  | cons now rest ih =>
    have hnow := hbound now (List.mem_cons_self _ _)
    rw [processTimes_cons now rest s e h] at hhead
    split at hhead
    · exact ih (fun t ht => hbound t (List.mem_cons_of_mem _ ht)) hhead
    · next hgate =>
      simp only [List.head?_cons, Option.some.injEq] at hhead
      subst hhead
      by_contra hlt
      exact hgate ⟨hrec, by omega⟩

theorem processTimes_chain (times : List Nat) (s : State) (e : EffectPtr) (speed : Nat)
    (h : activeEffect s = some e) (hspeed : (s.settings e).speed = speed)
    (hsorted : times.Pairwise (fun a b => a ≤ b)) (hbound : ∀ t ∈ times, t < 4294967296) :
    List.Chain' (fun t1 t2 => t1 ≠ 0 → speed ≤ t2 - t1) (processTimes times s) := by
  induction times generalizing s with
  | nil => simp [processTimes]
  | cons now rest ih =>
    rw [List.pairwise_cons] at hsorted
    have hrest : ∀ t ∈ rest, t < 4294967296 := fun t ht => hbound t (List.mem_cons_of_mem _ ht)
    rw [processTimes_cons now rest s e h]
    split
    · exact ih s h hspeed hsorted.2 hrest
    · have h1 := activeEffect_after_frame now s e h
      rw [List.chain'_cons']
      refine ⟨?_, ih _ h1 hspeed hsorted.2 hrest⟩
      intro t2 ht2 hne
      have := processTimes_head rest _ e h1
        (fun t ht => ⟨hsorted.1 t ht, hrest t ht⟩) t2 ht2 hne
      rw [← hspeed]
      exact this

/-! ## The button -/

theorem activeEffect_emit (s : State) (c : Call) : activeEffect (s.emit c) = activeEffect s := by
  simp [activeEffect, State.emit]

theorem activeEffect_of_lt (s : State) (h : s.activeIndex < s.effects.length) :
    ∃ e, activeEffect s = some e := by
  obtain ⟨e, he⟩ := getElem_some_of_lt s.effects _ h
  exact ⟨e, activeEffect_eq_some s e he⟩

theorem lt_of_activeEffect (s : State) (e : EffectPtr) (h : activeEffect s = some e) :
    s.activeIndex < s.effects.length :=
  (List.getElem?_eq_some.1 (getElem_of_activeEffect s e h)).1

theorem singleBranch_eq (tick : ButtonTick) (l : Lamp) :
    singleBranch tick l =
      { l with
        working := if tick.isSingle then !l.working else l.working,
        manager := { l.manager with calls := l.manager.calls ++
          if tick.isSingle then [Call.serialText "Single button", Call.saveLater] else [] } } := by
  unfold singleBranch
  cases tick.isSingle <;> simp [Lamp.emit, State.emit]

theorem doubleBranch_run (tick : ButtonTick) (l : Lamp)
    (h : l.manager.activeIndex < l.manager.effects.length) :
    ∃ l1, doubleBranch tick l = Except.ok l1 ∧ l1.pin = l.pin ∧
      l1.working = l.working ∧ l1.stepDirection = l.stepDirection ∧
      l1.isHolding = l.isHolding ∧ l.manager.calls <+: l1.manager.calls ∧
      l1.manager.activeIndex < l1.manager.effects.length ∧
      (tick.isDouble = false → l1 = l) := by
  unfold doubleBranch
  cases hd : tick.isDouble
  · exact ⟨l, by simp, rfl, rfl, rfl, rfl, List.prefix_refl _, h, fun _ => rfl⟩
  · have h1 : (l.emit (Call.serialText "Double button")).manager.activeIndex
        < (l.emit (Call.serialText "Double button")).manager.effects.length := by
      simpa [Lamp.emit, State.emit] using h
    obtain ⟨cur, new, _, _, hnext⟩ := next_ok _ h1
    simp only [hnext, if_true]
    refine ⟨_, rfl, rfl, rfl, rfl, rfl, ?_, ?_, by simp⟩
    · simp only [Lamp.emit, State.emit, activated, advanced, List.append_assoc]
      exact List.prefix_append _ _
    · simpa [Lamp.emit, State.emit, activated, advanced] using nextIndex_lt _ h1

theorem tripleBranch_run (tick : ButtonTick) (l : Lamp)
    (h : l.manager.activeIndex < l.manager.effects.length) :
    ∃ l1, tripleBranch tick l = Except.ok l1 ∧ l1.pin = l.pin ∧
      l1.working = l.working ∧ l1.stepDirection = l.stepDirection ∧
      l1.isHolding = l.isHolding ∧ l.manager.calls <+: l1.manager.calls ∧
      l1.manager.activeIndex < l1.manager.effects.length ∧
      (tick.isTriple = false → l1 = l) := by
  unfold tripleBranch
  cases hd : tick.isTriple
  · exact ⟨l, by simp, rfl, rfl, rfl, rfl, List.prefix_refl _, h, fun _ => rfl⟩
  · have h1 : (l.emit (Call.serialText "Triple button")).manager.activeIndex
        < (l.emit (Call.serialText "Triple button")).manager.effects.length := by
      simpa [Lamp.emit, State.emit] using h
    obtain ⟨cur, new, _, _, hprev⟩ := previous_ok _ h1
    simp only [hprev, if_true]
    refine ⟨_, rfl, rfl, rfl, rfl, rfl, ?_, ?_, by simp⟩
    · simp only [Lamp.emit, State.emit, activated, advanced, List.append_assoc]
      exact List.prefix_append _ _
    · simpa [Lamp.emit, State.emit, activated, advanced] using previousIndex_lt _ h1

/-- The direction a detected hold selects for the brightness `b` read from the effect. -/
theorem holdBranch_eq (tick : ButtonTick) (l : Lamp) (e : EffectPtr)
    (he : activeEffect l.manager = some e) (hh : tick.isHolded = true) :
    holdBranch tick l = Except.ok
      { l with
        isHolding := true,
        stepDirection :=
          if (l.manager.settings e).brightness % 256 ≤ 1 then 1
          else if (l.manager.settings e).brightness % 256 = 255 then -1
          else l.stepDirection,
        manager := l.manager.emit (Call.serialText "Holded button") } := by
  have he1 : activeEffect (l.manager.emit (Call.serialText "Holded button")) = some e := by
    rw [activeEffect_emit]; exact he
  simp only [holdBranch, hh, if_true, readBrightness, Lamp.emit, he1, deref]
  simp only [State.emit]
  split
  · rfl
  · split <;> rfl

theorem holdBranch_run (tick : ButtonTick) (l : Lamp)
    (h : l.manager.activeIndex < l.manager.effects.length) :
    ∃ l1, holdBranch tick l = Except.ok l1 ∧ l1.pin = l.pin ∧
      l1.working = l.working ∧
      (l1.stepDirection = l.stepDirection ∨ l1.stepDirection = 1 ∨ l1.stepDirection = -1) ∧
      l1.isHolding = (l.isHolding || tick.isHolded) ∧
      l.manager.calls <+: l1.manager.calls ∧
      l1.manager.activeIndex < l1.manager.effects.length ∧
      (tick.isHolded = false → l1 = l) := by
  cases hd : tick.isHolded
  · exact ⟨l, by simp [holdBranch, hd], rfl, rfl, Or.inl rfl, by simp, List.prefix_refl _, h,
      fun _ => rfl⟩
  · obtain ⟨e, he⟩ := activeEffect_of_lt _ h
    rw [holdBranch_eq tick l e he hd]
    refine ⟨_, rfl, rfl, rfl, ?_, by simp, ?_, ?_, by simp⟩
    · simp only
      split
      · exact Or.inr (Or.inl rfl)
      · split
        · exact Or.inr (Or.inr rfl)
        · exact Or.inl rfl
    · simp only [State.emit]
      exact List.prefix_append _ _
    · simpa [State.emit] using h

theorem stepBranch_idle (tick : ButtonTick) (l : Lamp)
    (h : (l.isHolding && tick.isStep) = false) : stepBranch tick l = Except.ok (l, false) := by
  simp [stepBranch, h]

theorem stepBranch_step (tick : ButtonTick) (l : Lamp) (e : EffectPtr)
    (hh : l.isHolding = true) (hs : tick.isStep = true)
    (he : activeEffect l.manager = some e) :
    stepBranch tick l =
      if l.stepDirection < 0 ∧ (l.manager.settings e).brightness % 256 = 1 then
        Except.ok (l, true)
      else if l.stepDirection > 0 ∧ (l.manager.settings e).brightness % 256 = 255 then
        Except.ok (l, true)
      else
        Except.ok
          (stepped (stepValue ((l.manager.settings e).brightness % 256) l.stepDirection) e l,
           false) := by
  have he1 : ∀ c, activeEffect (l.manager.emit c) = some e := fun c => by
    rw [activeEffect_emit]; exact he
  simp only [stepBranch, hh, hs, Bool.and_self, if_true, readBrightness, he, deref]
  split
  · rfl
  · split
    · rfl
    · simp only [writeBrightness, Lamp.emit, he1, deref]
      simp [stepped, stepValue, State.emit, setBrightness]

theorem stepBranch_run (tick : ButtonTick) (l : Lamp)
    (h : l.manager.activeIndex < l.manager.effects.length) :
    ∃ l1 r, stepBranch tick l = Except.ok (l1, r) ∧ l1.pin = l.pin ∧
      l1.working = l.working ∧ l1.stepDirection = l.stepDirection ∧
      l1.isHolding = l.isHolding ∧ l.manager.calls <+: l1.manager.calls ∧
      l1.manager.activeIndex < l1.manager.effects.length ∧
      (tick.isStep = false → l1 = l ∧ r = false) := by
  cases hc : (l.isHolding && tick.isStep)
  · exact ⟨l, false, stepBranch_idle tick l hc, rfl, rfl, rfl, rfl, List.prefix_refl _, h,
      fun _ => ⟨rfl, rfl⟩⟩
  · simp only [Bool.and_eq_true] at hc
    obtain ⟨e, he⟩ := activeEffect_of_lt _ h
    rw [stepBranch_step tick l e hc.1 hc.2 he]
    split
    · exact ⟨l, true, rfl, rfl, rfl, rfl, rfl, List.prefix_refl _, h, by simp [hc.2]⟩
    · split
      · exact ⟨l, true, rfl, rfl, rfl, rfl, rfl, List.prefix_refl _, h, by simp [hc.2]⟩
      · exact ⟨_, false, rfl, rfl, rfl, rfl, rfl, List.prefix_append _ _, h, by simp [hc.2]⟩

theorem releaseBranch_eq (tick : ButtonTick) (l : Lamp) :
    releaseBranch tick l =
      if tick.isRelease && l.isHolding then
        { l with
          isHolding := false,
          manager := { l.manager with calls := l.manager.calls ++
            [Call.serialText "Release button", Call.saveLater] } }
      else l := by
  unfold releaseBranch
  split <;> simp [Lamp.emit, State.emit]

/-- The parts of a lamp that the button handling of one report leaves alone or extends. -/
theorem processButton_running (tick : ButtonTick) (l : Lamp) (hpin : l.pin ≠ 0)
    (hw : (singleBranch tick l).working = true)
    (h : l.manager.activeIndex < l.manager.effects.length) :
    ∃ l1, processButton tick l = Except.ok l1 ∧ l1.pin = l.pin ∧ l1.working = true ∧
      (l1.stepDirection = l.stepDirection ∨ l1.stepDirection = 1 ∨ l1.stepDirection = -1) ∧
      (singleBranch tick l).manager.calls <+: l1.manager.calls ∧
      l1.manager.activeIndex < l1.manager.effects.length := by
  have h0 : (singleBranch tick l).manager.activeIndex
      < (singleBranch tick l).manager.effects.length := by
    rw [singleBranch_eq]; exact h
  have hdir0 : (singleBranch tick l).stepDirection = l.stepDirection := by
    rw [singleBranch_eq]
  have hpin0 : (singleBranch tick l).pin = l.pin := by rw [singleBranch_eq]
  obtain ⟨l2, e2, p2, w2, d2, _, c2, r2, _⟩ := doubleBranch_run tick _ h0
  obtain ⟨l3, e3, p3, w3, d3, _, c3, r3, _⟩ := tripleBranch_run tick l2 r2
  obtain ⟨l4, e4, p4, w4, d4, _, c4, r4, _⟩ := holdBranch_run tick l3 r3
  obtain ⟨l5, ret, e5, p5, w5, d5, i5, c5, r5, _⟩ := stepBranch_run tick l4 r4
  have hcalls : (singleBranch tick l).manager.calls <+: l5.manager.calls :=
    (c2.trans c3).trans (c4.trans c5)
  have hdir : l5.stepDirection = l.stepDirection ∨ l5.stepDirection = 1 ∨
      l5.stepDirection = -1 := by
    rw [d5]
    rcases d4 with d4 | d4
    · left; rw [d4, d3, d2, hdir0]
    · right; exact d4
  have hrun : processButton tick l =
      match ret with
      | true => Except.ok l5
      | false => Except.ok (releaseBranch tick l5) := by
    simp only [processButton, hpin, if_false, hw, Bool.not_true, e2, e3, e4, e5]
    cases ret <;> simp
  rw [hrun]
  cases ret
  · refine ⟨_, rfl, ?_, ?_, ?_, ?_, ?_⟩
    · rw [releaseBranch_eq]; split <;> simp [p5, p4, p3, p2, hpin0]
    · rw [releaseBranch_eq]; split <;> simp [w5, w4, w3, w2, hw]
    · rw [releaseBranch_eq]; split <;> exact hdir
    · rw [releaseBranch_eq]
      split
      · exact hcalls.trans (List.prefix_append _ _)
      · exact hcalls
    · rw [releaseBranch_eq]; split <;> exact r5
  · exact ⟨l5, rfl, by rw [p5, p4, p3, p2, hpin0], by rw [w5, w4, w3, w2, hw], hdir, hcalls, r5⟩

theorem activeEffect_stepped (b : Nat) (e : EffectPtr) (l : Lamp) :
    activeEffect (stepped b e l).manager = activeEffect l.manager := by
  simp [activeEffect, stepped]

theorem processButton_stepTick (l : Lamp) (hpin : l.pin ≠ 0) (hw : l.working = true) :
    processButton stepTick l =
      match stepBranch stepTick l with
      | Except.error f => Except.error f
      | Except.ok (l5, _) => Except.ok l5 := by
  have hs : singleBranch stepTick l = l := by simp [singleBranch, stepTick, idleTick]
  have hd : doubleBranch stepTick l = Except.ok l := by simp [doubleBranch, stepTick, idleTick]
  have ht : tripleBranch stepTick l = Except.ok l := by simp [tripleBranch, stepTick, idleTick]
  have hh : holdBranch stepTick l = Except.ok l := by simp [holdBranch, stepTick, idleTick]
  have hr : ∀ l5, releaseBranch stepTick l5 = l5 := fun l5 => by
    simp [releaseBranch, stepTick, idleTick]
  unfold processButton
  simp only [hpin, if_false, hs, hw, Bool.not_true, Bool.false_eq_true, hd, ht, hh]
  cases hsb : stepBranch stepTick l with
  | error f => rfl
  | ok p =>
    obtain ⟨l5, r⟩ := p
    cases r <;> simp [hr]

theorem processButton_holdTick (l : Lamp) (e : EffectPtr) (hpin : l.pin ≠ 0)
    (hw : l.working = true) (he : activeEffect l.manager = some e) :
    processButton holdTick l = Except.ok
      { l with
        isHolding := true,
        stepDirection :=
          if (l.manager.settings e).brightness % 256 ≤ 1 then 1
          else if (l.manager.settings e).brightness % 256 = 255 then -1
          else l.stepDirection,
        manager := l.manager.emit (Call.serialText "Holded button") } := by
  have hs : singleBranch holdTick l = l := by simp [singleBranch, holdTick, idleTick]
  have hd : doubleBranch holdTick l = Except.ok l := by simp [doubleBranch, holdTick, idleTick]
  have ht : tripleBranch holdTick l = Except.ok l := by simp [tripleBranch, holdTick, idleTick]
  have hh := holdBranch_eq holdTick l e he rfl
  have hr : ∀ l5, releaseBranch holdTick l5 = l5 := fun l5 => by
    simp [releaseBranch, holdTick, idleTick]
  have hst : ∀ l5, stepBranch holdTick l5 = Except.ok (l5, false) := fun l5 =>
    stepBranch_idle holdTick l5 (by simp [holdTick, idleTick])
  unfold processButton
  simp only [hpin, if_false, hs, hw, Bool.not_true, Bool.false_eq_true, hd, ht, hh, hst, hr]

theorem stepTick_up (l : Lamp) (e : EffectPtr) (b : Nat) (hpin : l.pin ≠ 0)
    (hw : l.working = true) (hh : l.isHolding = true) (hd : l.stepDirection = 1)
    (he : activeEffect l.manager = some e) (hb : (l.manager.settings e).brightness = b)
    (hmax : b ≤ 255) :
    ∃ l1, processButton stepTick l = Except.ok l1 ∧ l1.pin ≠ 0 ∧ l1.working = true ∧
      l1.isHolding = true ∧ l1.stepDirection = 1 ∧ activeEffect l1.manager = some e ∧
      (l1.manager.settings e).brightness = min (b + 1) 255 := by
  have hmod : b % 256 = b := by omega
  rw [processButton_stepTick l hpin hw, stepBranch_step stepTick l e hh rfl he, hb, hmod, hd]
  by_cases htop : b = 255
  · refine ⟨l, by simp [htop], hpin, hw, hh, hd, he, ?_⟩
    rw [hb]; omega
  · have hval : stepValue b 1 = b + 1 := by unfold stepValue; omega
    refine ⟨stepped (b + 1) e l, by simp [htop, hval], hpin, hw, hh, hd, ?_, ?_⟩
    · rw [activeEffect_stepped]; exact he
    · simp only [stepped, Function.update_same]; omega

theorem stepTick_down (l : Lamp) (e : EffectPtr) (b : Nat) (hpin : l.pin ≠ 0)
    (hw : l.working = true) (hh : l.isHolding = true) (hd : l.stepDirection = -1)
    (he : activeEffect l.manager = some e) (hb : (l.manager.settings e).brightness = b)
    (hmin : 1 ≤ b) (hmax : b ≤ 255) :
    ∃ l1, processButton stepTick l = Except.ok l1 ∧ l1.pin ≠ 0 ∧ l1.working = true ∧
      l1.isHolding = true ∧ l1.stepDirection = -1 ∧ activeEffect l1.manager = some e ∧
      (l1.manager.settings e).brightness = max (b - 1) 1 := by
  have hmod : b % 256 = b := by omega
  rw [processButton_stepTick l hpin hw, stepBranch_step stepTick l e hh rfl he, hb, hmod, hd]
  by_cases hbot : b = 1
  · refine ⟨l, by simp [hbot], hpin, hw, hh, hd, he, ?_⟩
    rw [hb]; omega
  · have hval : stepValue b (-1) = b - 1 := by unfold stepValue; omega
    refine ⟨stepped (b - 1) e l, by simp [hbot, hval], hpin, hw, hh, hd, ?_, ?_⟩
    · rw [activeEffect_stepped]; exact he
    · simp only [stepped, Function.update_same]; omega

theorem stepTicks_up (n : Nat) (l : Lamp) (e : EffectPtr) (b : Nat) (hpin : l.pin ≠ 0)
    (hw : l.working = true) (hh : l.isHolding = true) (hd : l.stepDirection = 1)
    (he : activeEffect l.manager = some e) (hb : (l.manager.settings e).brightness = b)
    (hmax : b ≤ 255) :
    ∃ l1, buttonTicks (List.replicate n stepTick) l = Except.ok l1 ∧
      (l1.manager.settings e).brightness = min (b + n) 255 := by
  induction n generalizing l b with
  | zero => exact ⟨l, rfl, by rw [hb]; omega⟩
  | succ n ih =>
    obtain ⟨l1, h1, p1, w1, i1, d1, e1, b1⟩ := stepTick_up l e b hpin hw hh hd he hb hmax
    obtain ⟨l2, h2, b2⟩ := ih l1 (min (b + 1) 255) p1 w1 i1 d1 e1 b1 (by omega)
    refine ⟨l2, by simp [List.replicate_succ, buttonTicks, h1, h2], ?_⟩
    rw [b2]; omega

theorem stepTicks_down (n : Nat) (l : Lamp) (e : EffectPtr) (b : Nat) (hpin : l.pin ≠ 0)
    (hw : l.working = true) (hh : l.isHolding = true) (hd : l.stepDirection = -1)
    (he : activeEffect l.manager = some e) (hb : (l.manager.settings e).brightness = b)
    (hmin : 1 ≤ b) (hmax : b ≤ 255) :
    ∃ l1, buttonTicks (List.replicate n stepTick) l = Except.ok l1 ∧
      (l1.manager.settings e).brightness = max (b - n) 1 := by
  induction n generalizing l b with
  | zero => exact ⟨l, rfl, by rw [hb]; omega⟩
  | succ n ih =>
    obtain ⟨l1, h1, p1, w1, i1, d1, e1, b1⟩ := stepTick_down l e b hpin hw hh hd he hb hmin hmax
    obtain ⟨l2, h2, b2⟩ := ih l1 (max (b - 1) 1) p1 w1 i1 d1 e1 b1 (by omega) (by omega)
    refine ⟨l2, by simp [List.replicate_succ, buttonTicks, h1, h2], ?_⟩
    rw [b2]; omega

theorem next_calls_prefix (s s1 : State) (h : next s = Except.ok s1) : s.calls <+: s1.calls := by
  by_cases hlt : s.activeIndex < s.effects.length
  · obtain ⟨cur, new, _, _, hnext⟩ := next_ok s hlt
    rw [hnext] at h
    injection h with h
    subst h
    simp only [activated, advanced, List.append_assoc]
    exact List.prefix_append _ _
  · unfold next at h
    simp [activeEffect_eq_none s hlt, deref] at h

theorem previous_calls_prefix (s s1 : State) (h : previous s = Except.ok s1) :
    s.calls <+: s1.calls := by
  by_cases hlt : s.activeIndex < s.effects.length
  · obtain ⟨cur, new, _, _, hprev⟩ := previous_ok s hlt
    rw [hprev] at h
    injection h with h
    subst h
    simp only [activated, advanced, List.append_assoc]
    exact List.prefix_append _ _
  · unfold previous at h
    simp [activeEffect_eq_none s hlt, deref] at h

theorem doubleBranch_ok_frame (tick : ButtonTick) (l l1 : Lamp)
    (h : doubleBranch tick l = Except.ok l1) :
    l1.working = l.working ∧ l1.stepDirection = l.stepDirection ∧
      l.manager.calls <+: l1.manager.calls := by
  unfold doubleBranch at h
  split at h
  · simp only at h
    split at h
    · exact absurd h (by simp)
    · next m hm =>
      injection h with h
      subst h
      refine ⟨rfl, rfl, ?_⟩
      have := next_calls_prefix _ _ hm
      simp only [Lamp.emit, State.emit] at this ⊢
      exact ((List.prefix_append _ _).trans this).trans (List.prefix_append _ _)
  · injection h with h
    subst h
    exact ⟨rfl, rfl, List.prefix_refl _⟩

theorem tripleBranch_ok_frame (tick : ButtonTick) (l l1 : Lamp)
    (h : tripleBranch tick l = Except.ok l1) :
    l1.working = l.working ∧ l1.stepDirection = l.stepDirection ∧
      l.manager.calls <+: l1.manager.calls := by
  unfold tripleBranch at h
  split at h
  · simp only at h
    split at h
    · exact absurd h (by simp)
    · next m hm =>
      injection h with h
      subst h
      refine ⟨rfl, rfl, ?_⟩
      have := previous_calls_prefix _ _ hm
      simp only [Lamp.emit, State.emit] at this ⊢
      exact ((List.prefix_append _ _).trans this).trans (List.prefix_append _ _)
  · injection h with h
    subst h
    exact ⟨rfl, rfl, List.prefix_refl _⟩

theorem holdBranch_ok_frame (tick : ButtonTick) (l l1 : Lamp)
    (h : holdBranch tick l = Except.ok l1) :
    l1.working = l.working ∧
      (l1.stepDirection = l.stepDirection ∨ l1.stepDirection = 1 ∨ l1.stepDirection = -1) ∧
      l.manager.calls <+: l1.manager.calls := by
  by_cases hlt : l.manager.activeIndex < l.manager.effects.length
  · obtain ⟨l2, h2, _, w2, d2, _, c2, _, _⟩ := holdBranch_run tick l hlt
    rw [h2] at h
    injection h with h
    subst h
    exact ⟨w2, d2, c2⟩
  · cases hd : tick.isHolded
    · simp only [holdBranch, hd, Bool.false_eq_true, if_false] at h
      injection h with h
      subst h
      exact ⟨rfl, Or.inl rfl, List.prefix_refl _⟩
    · have hnone : activeEffect (l.manager.emit (Call.serialText "Holded button")) = none := by
        rw [activeEffect_emit]; exact activeEffect_eq_none _ hlt
      simp [holdBranch, hd, readBrightness, Lamp.emit, hnone, deref] at h

theorem stepBranch_ok_frame (tick : ButtonTick) (l l1 : Lamp) (r : Bool)
    (h : stepBranch tick l = Except.ok (l1, r)) :
    l1.working = l.working ∧ l1.stepDirection = l.stepDirection ∧
      l.manager.calls <+: l1.manager.calls := by
  by_cases hlt : l.manager.activeIndex < l.manager.effects.length
  · obtain ⟨l2, r2, h2, _, w2, d2, _, c2, _, _⟩ := stepBranch_run tick l hlt
    rw [h2] at h
    injection h with h
    injection h with h hr
    subst h
    exact ⟨w2, d2, c2⟩
  · cases hc : (l.isHolding && tick.isStep)
    · rw [stepBranch_idle tick l hc] at h
      injection h with h
      injection h with h hr
      subst h
      exact ⟨rfl, rfl, List.prefix_refl _⟩
    · simp [stepBranch, hc, readBrightness, activeEffect_eq_none _ hlt, deref] at h

theorem processButton_ok_frame (tick : ButtonTick) (l l1 : Lamp) (hpin : l.pin ≠ 0)
    (h : processButton tick l = Except.ok l1) :
    l1.working = (singleBranch tick l).working ∧
      (l1.stepDirection = l.stepDirection ∨ l1.stepDirection = 1 ∨ l1.stepDirection = -1) ∧
      (singleBranch tick l).manager.calls <+: l1.manager.calls := by
  have hdir0 : (singleBranch tick l).stepDirection = l.stepDirection := by
    rw [singleBranch_eq]
  unfold processButton at h
  simp only [hpin, if_false] at h
  split at h
  · injection h with h
    subst h
    exact ⟨rfl, Or.inl hdir0, List.prefix_refl _⟩
  · split at h
    · exact absurd h (by simp)
    · next l2 h2 =>
      obtain ⟨w2, d2, c2⟩ := doubleBranch_ok_frame _ _ _ h2
      split at h
      · exact absurd h (by simp)
      · next l3 h3 =>
        obtain ⟨w3, d3, c3⟩ := tripleBranch_ok_frame _ _ _ h3
        split at h
        · exact absurd h (by simp)
        · next l4 h4 =>
          obtain ⟨w4, d4, c4⟩ := holdBranch_ok_frame _ _ _ h4
          have hdir4 : l4.stepDirection = l.stepDirection ∨ l4.stepDirection = 1 ∨
              l4.stepDirection = -1 := by
            rcases d4 with d4 | d4
            · left; rw [d4, d3, d2, hdir0]
            · right; exact d4
          split at h
          · exact absurd h (by simp)
          · next l5 h5 =>
            obtain ⟨w5, d5, c5⟩ := stepBranch_ok_frame _ _ _ _ h5
            injection h with h
            subst h
            exact ⟨by rw [w5, w4, w3, w2], by rw [d5]; exact hdir4,
              (c2.trans c3).trans (c4.trans c5)⟩
          · next l5 h5 =>
            obtain ⟨w5, d5, c5⟩ := stepBranch_ok_frame _ _ _ _ h5
            injection h with h
            subst h
            rw [releaseBranch_eq]
            split
            · exact ⟨by simp [w5, w4, w3, w2], by simp only; rw [d5]; exact hdir4,
                ((c2.trans c3).trans (c4.trans c5)).trans (List.prefix_append _ _)⟩
            · exact ⟨by rw [w5, w4, w3, w2], by rw [d5]; exact hdir4,
                (c2.trans c3).trans (c4.trans c5)⟩

theorem processButton_chain (tick : ButtonTick) (l : Lamp) (hpin : l.pin ≠ 0)
    (hrun : (singleBranch tick l).working = true)
    (hrange : l.manager.activeIndex < l.manager.effects.length) :
    ∃ l2 l3 l4 l5 ret,
      doubleBranch tick (singleBranch tick l) = Except.ok l2 ∧
      tripleBranch tick l2 = Except.ok l3 ∧ holdBranch tick l3 = Except.ok l4 ∧
      stepBranch tick l4 = Except.ok (l5, ret) ∧
      processButton tick l = Except.ok (if ret then l5 else releaseBranch tick l5) ∧
      l3.manager.activeIndex < l3.manager.effects.length ∧
      l3.stepDirection = l.stepDirection := by
  have h0 : (singleBranch tick l).manager.activeIndex
      < (singleBranch tick l).manager.effects.length := by
    rw [singleBranch_eq]; exact hrange
  have hdir0 : (singleBranch tick l).stepDirection = l.stepDirection := by
    rw [singleBranch_eq]
  obtain ⟨l2, e2, _, _, d2, _, _, r2, _⟩ := doubleBranch_run tick _ h0
  obtain ⟨l3, e3, _, _, d3, _, _, r3, _⟩ := tripleBranch_run tick l2 r2
  obtain ⟨l4, e4, _, _, _, _, _, r4, _⟩ := holdBranch_run tick l3 r3
  obtain ⟨l5, ret, e5, _⟩ := stepBranch_run tick l4 r4
  refine ⟨l2, l3, l4, l5, ret, e2, e3, e4, e5, ?_, r3, by rw [d3, d2, hdir0]⟩
  simp only [processButton, hpin, if_false, hrun, Bool.not_true, Bool.false_eq_true, e2, e3,
    e4, e5]
  cases ret <;> rfl

theorem processButton_hold_direction (tick : ButtonTick) (l : Lamp)
    (hpin : l.pin ≠ 0) (hrun : (singleBranch tick l).working = true)
    (hh : tick.isHolded = true)
    (hrange : l.manager.activeIndex < l.manager.effects.length) :
    ∃ l3 e l1, beforeHold tick l = Except.ok l3 ∧ activeEffect l3.manager = some e ∧
      processButton tick l = Except.ok l1 ∧
      l1.stepDirection =
        if (l3.manager.settings e).brightness % 256 ≤ 1 then 1
        else if (l3.manager.settings e).brightness % 256 = 255 then -1
        else l.stepDirection := by
  obtain ⟨l2, l3, l4, l5, ret, e2, e3, e4, e5, hproc, r3, d3⟩ :=
    processButton_chain tick l hpin hrun hrange
  obtain ⟨e, he⟩ := activeEffect_of_lt _ r3
  rw [holdBranch_eq tick _ e he hh] at e4
  injection e4 with e4
  have hd4 : l4.stepDirection =
      if (l3.manager.settings e).brightness % 256 ≤ 1 then 1
      else if (l3.manager.settings e).brightness % 256 = 255 then -1
      else l.stepDirection := by
    rw [← e4, d3]
  obtain ⟨_, d5, _⟩ := stepBranch_ok_frame _ _ _ _ e5
  refine ⟨l3, e, _, by simp only [beforeHold, e2, e3], he, hproc, ?_⟩
  cases ret
  · simp only [Bool.false_eq_true, if_false]
    rw [releaseBranch_eq]
    split
    · simp only; rw [d5, hd4]
    · rw [d5, hd4]
  · simp only [if_true]
    rw [d5, hd4]

theorem beforeHold_plain (tick : ButtonTick) (l : Lamp) (hd : tick.isDouble = false)
    (ht : tick.isTriple = false) : beforeHold tick l = Except.ok (singleBranch tick l) := by
  simp [beforeHold, doubleBranch, tripleBranch, hd, ht]

theorem processButton_paused (tick : ButtonTick) (l : Lamp) (hpin : l.pin ≠ 0)
    (hw : (singleBranch tick l).working = false) :
    processButton tick l = Except.ok (singleBranch tick l) := by
  simp [processButton, hpin, hw]

theorem processButton_release (tick : ButtonTick) (l : Lamp) (hpin : l.pin ≠ 0)
    (hhold : l.isHolding = true) (hrel : tick.isRelease = true) (hstep : tick.isStep = false)
    (hrun : (singleBranch tick l).working = true)
    (hrange : l.manager.activeIndex < l.manager.effects.length) :
    ∃ l1 before, processButton tick l = Except.ok l1 ∧ l1.isHolding = false ∧
      l1.manager.calls =
        l.manager.calls ++ before ++ [Call.serialText "Release button", Call.saveLater] := by
  have h0 : (singleBranch tick l).manager.activeIndex
      < (singleBranch tick l).manager.effects.length := by
    rw [singleBranch_eq]; exact hrange
  have hhold0 : (singleBranch tick l).isHolding = true := by
    rw [singleBranch_eq]; exact hhold
  have hc0 : l.manager.calls <+: (singleBranch tick l).manager.calls := by
    rw [singleBranch_eq]; exact List.prefix_append _ _
  obtain ⟨l2, e2, _, _, _, i2, c2, r2, _⟩ := doubleBranch_run tick _ h0
  obtain ⟨l3, e3, _, _, _, i3, c3, r3, _⟩ := tripleBranch_run tick l2 r2
  obtain ⟨l4, e4, _, _, _, i4, c4, r4, _⟩ := holdBranch_run tick l3 r3
  obtain ⟨l5, ret, e5, _, _, _, _, _, _, hidle⟩ := stepBranch_run tick l4 r4
  obtain ⟨hl5, hret⟩ := hidle hstep
  subst hl5 hret
  have hhold4 : l5.isHolding = true := by rw [i4, i3, i2, hhold0]; rfl
  have hproc : processButton tick l = Except.ok (releaseBranch tick l5) := by
    simp only [processButton, hpin, if_false, hrun, Bool.not_true, Bool.false_eq_true, e2, e3,
      e4, e5]
  obtain ⟨before, hbefore⟩ := (hc0.trans (c2.trans c3)).trans c4
  refine ⟨_, before, hproc, ?_, ?_⟩
  · rw [releaseBranch_eq]; simp [hrel, hhold4]
  · rw [releaseBranch_eq]; simp [hrel, hhold4, hbefore]

theorem processButton_clicks_only (tick : ButtonTick) (l : Lamp) (hpin : l.pin ≠ 0)
    (hrun : (singleBranch tick l).working = true) (hd : tick.isDouble = false)
    (ht : tick.isTriple = false) (hh : tick.isHolded = false) (hs : tick.isStep = false) :
    processButton tick l = Except.ok (releaseBranch tick (singleBranch tick l)) := by
  have h2 : doubleBranch tick (singleBranch tick l) = Except.ok (singleBranch tick l) := by
    simp [doubleBranch, hd]
  have h3 : tripleBranch tick (singleBranch tick l) = Except.ok (singleBranch tick l) := by
    simp [tripleBranch, ht]
  have h4 : holdBranch tick (singleBranch tick l) = Except.ok (singleBranch tick l) := by
    simp [holdBranch, hh]
  have h5 := stepBranch_idle tick (singleBranch tick l) (by simp [hs])
  simp only [processButton, hpin, if_false, hrun, Bool.not_true, Bool.false_eq_true, h2, h3,
    h4, h5]

theorem processButton_chain_holding (tick : ButtonTick) (l : Lamp) (hpin : l.pin ≠ 0)
    (hrun : (singleBranch tick l).working = true) (hhold : l.isHolding = true)
    (hrange : l.manager.activeIndex < l.manager.effects.length) :
    ∃ l4 l5 ret, beforeStep tick l = Except.ok l4 ∧
      stepBranch tick l4 = Except.ok (l5, ret) ∧
      processButton tick l = Except.ok (if ret then l5 else releaseBranch tick l5) ∧
      l4.isHolding = true ∧ l4.manager.activeIndex < l4.manager.effects.length ∧
      l.manager.calls <+: l4.manager.calls := by
  have h0 : (singleBranch tick l).manager.activeIndex
      < (singleBranch tick l).manager.effects.length := by
    rw [singleBranch_eq]; exact hrange
  have hhold0 : (singleBranch tick l).isHolding = true := by
    rw [singleBranch_eq]; exact hhold
  have hc0 : l.manager.calls <+: (singleBranch tick l).manager.calls := by
    rw [singleBranch_eq]; exact List.prefix_append _ _
  obtain ⟨l2, e2, _, _, _, i2, c2, r2, _⟩ := doubleBranch_run tick _ h0
  obtain ⟨l3, e3, _, _, _, i3, c3, r3, _⟩ := tripleBranch_run tick l2 r2
  obtain ⟨l4, e4, _, _, _, i4, c4, r4, _⟩ := holdBranch_run tick l3 r3
  obtain ⟨l5, ret, e5, _⟩ := stepBranch_run tick l4 r4
  refine ⟨l4, l5, ret, by simp only [beforeStep, beforeHold, e2, e3, e4], e5, ?_, ?_, r4,
    (hc0.trans (c2.trans c3)).trans c4⟩
  · simp only [processButton, hpin, if_false, hrun, Bool.not_true, Bool.false_eq_true, e2, e3,
      e4, e5]
    cases ret <;> rfl
  · rw [i4, i3, i2, hhold0]; rfl

theorem beforeStep_plain (tick : ButtonTick) (l : Lamp) (hd : tick.isDouble = false)
    (ht : tick.isTriple = false) (hh : tick.isHolded = false) :
    beforeStep tick l = Except.ok (singleBranch tick l) := by
  simp [beforeStep, beforeHold, doubleBranch, tripleBranch, holdBranch, hd, ht, hh]

theorem processButton_release_step (tick : ButtonTick) (l : Lamp) (hpin : l.pin ≠ 0)
    (hhold : l.isHolding = true) (hrel : tick.isRelease = true)
    (hrun : (singleBranch tick l).working = true)
    (hrange : l.manager.activeIndex < l.manager.effects.length) :
    ∃ l4 e, beforeStep tick l = Except.ok l4 ∧ activeEffect l4.manager = some e ∧
      (¬ (tick.isStep = true ∧
          ((l4.stepDirection < 0 ∧ (l4.manager.settings e).brightness % 256 = 1) ∨
           (l4.stepDirection > 0 ∧ (l4.manager.settings e).brightness % 256 = 255))) →
        ∃ l1 before, processButton tick l = Except.ok l1 ∧ l1.isHolding = false ∧
          l1.manager.calls = l.manager.calls ++ before ++
            [Call.serialText "Release button", Call.saveLater]) := by
  obtain ⟨l4, l5, ret, h4, e5, hproc, i4, r4, c4⟩ :=
    processButton_chain_holding tick l hpin hrun hhold hrange
  obtain ⟨e, he⟩ := activeEffect_of_lt _ r4
  refine ⟨l4, e, h4, he, ?_⟩
  intro hnot
  have hfinal : ∀ l6 : Lamp, l6.isHolding = true → l.manager.calls <+: l6.manager.calls →
      stepBranch tick l4 = Except.ok (l6, false) →
      ∃ l1 before, processButton tick l = Except.ok l1 ∧ l1.isHolding = false ∧
        l1.manager.calls = l.manager.calls ++ before ++
          [Call.serialText "Release button", Call.saveLater] := by
    intro l6 i6 c6 e6
    rw [e5] at e6
    injection e6 with e6
    injection e6 with e6 hret
    subst e6 hret
    obtain ⟨before, hbefore⟩ := c6
    refine ⟨_, before, hproc, ?_, ?_⟩
    · simp only [Bool.false_eq_true, if_false]
      rw [releaseBranch_eq]; simp [hrel, i6]
    · simp only [Bool.false_eq_true, if_false]
      rw [releaseBranch_eq]; simp [hrel, i6, hbefore]
  cases hs : tick.isStep
  · exact hfinal l4 i4 c4 (stepBranch_idle tick l4 (by simp [hs]))
  · have hstep := stepBranch_step tick l4 e i4 hs he
    have h1 : ¬ (l4.stepDirection < 0 ∧ (l4.manager.settings e).brightness % 256 = 1) :=
      fun h => hnot ⟨hs, Or.inl h⟩
    have h2 : ¬ (l4.stepDirection > 0 ∧ (l4.manager.settings e).brightness % 256 = 255) :=
      fun h => hnot ⟨hs, Or.inr h⟩
    rw [if_neg h1, if_neg h2] at hstep
    refine hfinal _ ?_ ?_ hstep
    · simpa [stepped] using i4
    · exact c4.trans (by simp only [stepped]; exact List.prefix_append _ _)

/-! ## The render bridge -/

theorem processMatrix32_calls (current taken : Nat) (b : Bridge) (h : b.userTaskHandle = 0) :
    processMatrix32 current taken b =
      { b with userTaskHandle := 0,
               calls := b.calls ++ [BridgeCall.noInterrupts, BridgeCall.currentTaskHandle,
                 BridgeCall.notifyGive b.processMatrixTaskHandle,
                 BridgeCall.notifyTake true (BlockTime.ticksOfMs 200),
                 BridgeCall.interrupts] } := by
  simp [processMatrix32, h, bridgeLeave, bridgeEnter, Bridge.emit]

/-- The bookkeeping that holds after every event: the render task's handle is never the
requester's, and the notifications to the render task are the ended requests plus the one
that is outstanding. -/
theorem bridgeStep_invariant (ev : BridgeEvent) (b : Bridge) (renderTask : Nat)
    (hr : renderTask ≠ 0)
    (hev : ∀ current, ev = BridgeEvent.enter current → current ≠ 0 ∧ current ≠ renderTask)
    (h1 : b.processMatrixTaskHandle = renderTask) (h2 : b.userTaskHandle ≠ renderTask)
    (h3 : b.calls.count (BridgeCall.notifyGive renderTask) =
      b.calls.count BridgeCall.interrupts + if b.userTaskHandle = 0 then 0 else 1) :
    (bridgeStep ev b).processMatrixTaskHandle = renderTask ∧
    (bridgeStep ev b).userTaskHandle ≠ renderTask ∧
    (bridgeStep ev b).calls.count (BridgeCall.notifyGive renderTask) =
      (bridgeStep ev b).calls.count BridgeCall.interrupts +
        if (bridgeStep ev b).userTaskHandle = 0 then 0 else 1 := by
  cases ev with
  | enter current =>
    obtain ⟨hc0, hcr⟩ := hev current rfl
    by_cases hz : b.userTaskHandle = 0
    · simp only [bridgeStep, hz, if_true, bridgeEnter, Bridge.emit]
      refine ⟨h1, hcr, ?_⟩
      simp only [hz, if_true] at h3
      simp [List.count_append, h1, h3, hc0]
    · have hstep : bridgeStep (BridgeEvent.enter current) b = b := by
        simp [bridgeStep, hz]
      rw [hstep]
      exact ⟨h1, h2, h3⟩
  | resume taken =>
    by_cases hz : b.userTaskHandle = 0
    · have hstep : bridgeStep (BridgeEvent.resume taken) b = b := by
        simp [bridgeStep, hz]
      rw [hstep]
      exact ⟨h1, h2, h3⟩
    · simp only [bridgeStep, hz, if_false, bridgeLeave, Bridge.emit]
      refine ⟨h1, fun h => hr h.symm, ?_⟩
      simp only [hz, if_false] at h3
      simp [List.count_append, h3]
  | render =>
    simp only [bridgeStep, processMatrixTask, Bridge.emit]
    refine ⟨h1, h2, ?_⟩
    have hne : BridgeCall.notifyGive b.userTaskHandle ≠ BridgeCall.notifyGive renderTask :=
      fun h => h2 (by injection h)
    simp [List.count_append, h3, List.count_cons, hne]

theorem bridgeRun_invariant (events : List BridgeEvent) (b : Bridge) (renderTask : Nat)
    (hr : renderTask ≠ 0)
    (hev : ∀ current, BridgeEvent.enter current ∈ events → current ≠ 0 ∧ current ≠ renderTask)
    (h1 : b.processMatrixTaskHandle = renderTask) (h2 : b.userTaskHandle ≠ renderTask)
    (h3 : b.calls.count (BridgeCall.notifyGive renderTask) =
      b.calls.count BridgeCall.interrupts + if b.userTaskHandle = 0 then 0 else 1) :
    requestsInFlight (bridgeRun events b) =
      if (bridgeRun events b).userTaskHandle = 0 then 0 else 1 := by
  induction events generalizing b with
  | nil =>
    simp only [bridgeRun, requestsInFlight, h1, h3]
    omega
  | cons ev rest ih =>
    obtain ⟨k1, k2, k3⟩ := bridgeStep_invariant ev b renderTask hr
      (fun current h => hev current (by rw [h]; exact List.mem_cons_self _ _)) h1 h2 h3
    exact ih (bridgeStep ev b) (fun current h => hev current (List.mem_cons_of_mem _ h))
      k1 k2 k3

/-! ## Switching the active effect -/

/-- C1: in a state whose `activeIndex` is in range, `activateEffect(index)` with `index` in
range completes with `activeIndex = index`; the calls it issues contain exactly one
`deactivate()`, to the effect that was active before, and exactly one `activate()`, to the
effect at position `index`. -/
theorem activateEffect_in_range (s : State) (index : Nat)
    (hactive : s.activeIndex < s.effects.length) (hindex : index < s.effects.length) :
    ∃ s1, activateEffect index s = Except.ok s1 ∧ s1.activeIndex = index ∧
      deactivations (s1.calls.drop s.calls.length) = [s.effects[s.activeIndex]] ∧
      activations (s1.calls.drop s.calls.length) = [s.effects[index]] := by
  have hold : s.effects[s.activeIndex]? = some s.effects[s.activeIndex] :=
    List.getElem?_eq_getElem hactive
  have hc : clampIndex index s = index := clampIndex_of_lt s index hindex
  have hnew : s.effects[clampIndex index s]? = some s.effects[index] := by
    rw [hc]; exact List.getElem?_eq_getElem hindex
  refine ⟨_, activateEffect_eq s index _ _ hold hnew, ?_, ?_, ?_⟩
  · simp [activated, hc]
  · simp [activated, deactivations]
  · simp [activated, activations]

/-- C1 at the scenario state: Sparkles active, `activateEffect(2)` selects Matrix. -/
theorem activateEffect_in_range_witness :
    demoState.activeIndex < demoState.effects.length ∧ 2 < demoState.effects.length ∧
    ∃ s1, activateEffect 2 demoState = Except.ok s1 ∧ s1.activeIndex = 2 ∧
      deactivations (s1.calls.drop demoState.calls.length) = [0] ∧
      activations (s1.calls.drop demoState.calls.length) = [2] :=
  ⟨by decide, by decide, activateEffect_in_range demoState 2 (by decide) (by decide)⟩

/-- C2 fails for a list of 257 entries: at position 255 the 8-bit increment of `next()`
wraps to 0 although position 256 exists, and at position 0 `previous()` converts
`size - 1 = 256` to the 8-bit value 0. -/
theorem next_previous_wide_counterexample :
    (wideState 255).activeIndex < (wideState 255).effects.length ∧
    indexAfter (next (wideState 255)) = some 0 ∧
    ((wideState 255).activeIndex + 1) % (wideState 255).effects.length = 256 ∧
    (wideState 0).activeIndex < (wideState 0).effects.length ∧
    indexAfter (previous (wideState 0)) = some 0 ∧
    ((wideState 0).activeIndex + (wideState 0).effects.length - 1)
      % (wideState 0).effects.length = 256 := by
  set_option maxRecDepth 100000 in decide

/-- C2, amended: when the enabled list has at most 256 entries and `activeIndex` is in
range, `next()` completes with `activeIndex = (activeIndex + 1) mod len` and `previous()`
with `activeIndex = (activeIndex + len - 1) mod len`; neither changes the enabled list. -/
theorem next_previous_index (s : State) (hactive : s.activeIndex < s.effects.length)
    (hlen : s.effects.length ≤ 256) :
    (∃ s1, next s = Except.ok s1 ∧
      s1.activeIndex = (s.activeIndex + 1) % s.effects.length ∧ s1.effects = s.effects) ∧
    (∃ s2, previous s = Except.ok s2 ∧
      s2.activeIndex = (s.activeIndex + s.effects.length - 1) % s.effects.length ∧
      s2.effects = s.effects) := by
  exact ⟨next_index_small s hactive hlen, previous_index_small s hactive hlen⟩

/-- C2 at the scenario `[Sparkles, Fire, Matrix]`, Sparkles active: `next()` gives
position 1 and `previous()` position 2; two `next()` give 2 and a third gives 0. -/
theorem next_previous_index_witness :
    (demoState.activeIndex < demoState.effects.length ∧ demoState.effects.length ≤ 256) ∧
    ((∃ s1, next demoState = Except.ok s1 ∧ s1.activeIndex = (0 + 1) % 3 ∧
        s1.effects = [0, 1, 2]) ∧
     (∃ s2, previous demoState = Except.ok s2 ∧ s2.activeIndex = (0 + 3 - 1) % 3 ∧
        s2.effects = [0, 1, 2])) ∧
    indexAfter (nextTimes 2 demoState) = some 2 ∧
    indexAfter (nextTimes 3 demoState) = some 0 :=
  ⟨by decide, next_previous_index demoState (by decide) (by decide), by decide, by decide⟩

/-- C3 fails for a list of 257 entries: `count()` returns the 8-bit value 1, and one
`next()` from position 0 ends at position 1. -/
theorem next_count_times_wide_counterexample :
    (wideState 0).activeIndex < (wideState 0).effects.length ∧
    count (wideState 0) = 1 ∧
    indexAfter (nextTimes (count (wideState 0)) (wideState 0)) = some 1 ∧
    (wideState 0).activeIndex = 0 := by
  set_option maxRecDepth 100000 in decide

/-- C3, amended: when the enabled list has at most 256 entries and `activeIndex` is in
range, applying `next()` as many times as `count()` returns completes and brings
`activeIndex` back to its value before the first call. -/
theorem next_count_times (s : State) (hactive : s.activeIndex < s.effects.length)
    (hlen : s.effects.length ≤ 256) :
    ∃ s1, nextTimes (count s) s = Except.ok s1 ∧ s1.activeIndex = s.activeIndex := by
  obtain ⟨s1, h1, hidx, _⟩ := nextTimes_index_small (count s) s hactive hlen
  refine ⟨s1, h1, ?_⟩
  rw [hidx]
  unfold count
  rcases Nat.lt_or_ge s.effects.length 256 with hlt | hge
  · rw [Nat.mod_eq_of_lt hlt, Nat.add_mod_right, Nat.mod_eq_of_lt hactive]
  · have h256 : s.effects.length = 256 := by omega
    rw [h256, Nat.mod_self, Nat.add_zero, ← h256, Nat.mod_eq_of_lt hactive]

/-- C3 at the scenario `[Sparkles, Fire, Matrix]` with Sparkles active: `count()` is 3
and three `next()` end at position 0 again. -/
theorem next_count_times_witness :
    (demoState.activeIndex < demoState.effects.length ∧ demoState.effects.length ≤ 256) ∧
    count demoState = 3 ∧
    ∃ s1, nextTimes (count demoState) demoState = Except.ok s1 ∧ s1.activeIndex = 0 :=
  ⟨by decide, by decide, next_count_times demoState (by decide) (by decide)⟩

/-- C4 fails for a list of 257 entries at position 255: `next()` wraps the 8-bit index
to 0, and `previous()` from 0 converts `size - 1 = 256` to 0, so the pair ends at
position 0. -/
theorem next_then_previous_wide_counterexample :
    (wideState 255).activeIndex < (wideState 255).effects.length ∧
    (wideState 255).activeIndex = 255 ∧
    indexAfter (match next (wideState 255) with
      | Except.ok s1 => previous s1
      | Except.error f => Except.error f) = some 0 := by
  set_option maxRecDepth 100000 in decide

/-- C4, amended: when the enabled list has at most 256 entries and `activeIndex` is in
range, `next()` followed by `previous()` completes and leaves `activeIndex` at its value
before the two calls. -/
theorem next_then_previous (s : State) (hactive : s.activeIndex < s.effects.length)
    (hlen : s.effects.length ≤ 256) :
    ∃ s1 s2, next s = Except.ok s1 ∧ previous s1 = Except.ok s2 ∧
      s2.activeIndex = s.activeIndex := by
  obtain ⟨s1, h1, hidx, heff⟩ := next_index_small s hactive hlen
  have hpos : 0 < s.effects.length := by omega
  have hact1 : s1.activeIndex < s1.effects.length := by
    rw [hidx, heff]; exact Nat.mod_lt _ hpos
  obtain ⟨s2, h2, hidx2, _⟩ := previous_index_small s1 hact1 (by rw [heff]; exact hlen)
  refine ⟨s1, s2, h1, h2, ?_⟩
  rw [hidx2, hidx, heff]
  rcases Nat.lt_or_ge (s.activeIndex + 1) s.effects.length with hlt | hge
  · rw [Nat.mod_eq_of_lt hlt]
    have : s.activeIndex + 1 + s.effects.length - 1 = s.activeIndex + s.effects.length := by
      omega
    rw [this, Nat.add_mod_right, Nat.mod_eq_of_lt hactive]
  · have heq : s.activeIndex + 1 = s.effects.length := by omega
    rw [heq, Nat.mod_self, Nat.zero_add]
    exact Nat.mod_eq_of_lt (by omega) |>.trans (by omega)

/-- C4 at the scenario `[Sparkles, Fire, Matrix]` with Sparkles active. -/
theorem next_then_previous_witness :
    (demoState.activeIndex < demoState.effects.length ∧ demoState.effects.length ≤ 256) ∧
    ∃ s1 s2, next demoState = Except.ok s1 ∧ previous s1 = Except.ok s2 ∧
      s2.activeIndex = 0 :=
  ⟨by decide, next_then_previous demoState (by decide) (by decide)⟩

/-! ## The invariant and the empty list -/

/-- C5: in every state the manager reaches from construction (empty list, `activeIndex`
0) through operations that complete, the enabled list is empty or `activeIndex` is a
position of it. -/
theorem activeIndex_in_range_of_reachable (init : InitFn)
    (registry : List (String × EffectPtr)) (settings : EffectPtr → EffectSettings)
    (brightness : Nat) (s : State) (h : Reachable init registry settings brightness s) :
    s.effects = [] ∨ s.activeIndex < s.effects.length := by
  rcases valid_of_reachable init registry settings brightness s h with hlt | ⟨hnil, _⟩
  · exact Or.inr hlt
  · exact Or.inl hnil

/-- C5 at the state reached by `processAllEffects()` and then `previous()`. -/
theorem activeIndex_in_range_of_reachable_witness :
    Reachable demoInit demoRegistry demoSettings 80 demoReached ∧
    (demoReached.effects = [] ∨ demoReached.activeIndex < demoReached.effects.length) :=
  ⟨demoReached_reachable,
   activeIndex_in_range_of_reachable demoInit demoRegistry demoSettings 80 demoReached
     demoReached_reachable⟩

/-- C6, the code at the failing input: with an empty enabled list `activateEffect`, `next`,
`previous`, `updateCurrentSettings` and `updateSettingsById` all use the null pointer that
`activeEffect()` returns, whatever the rest of the state and the arguments are. -/
theorem empty_list_null_dereference (s : State) (init : InitFn) (index : Nat) (id : String)
    (json : JsonObject) :
    activateEffect index { s with effects := [] } = Except.error Fault.nullDereference ∧
    next { s with effects := [] } = Except.error Fault.nullDereference ∧
    previous { s with effects := [] } = Except.error Fault.nullDereference ∧
    updateCurrentSettings init json { s with effects := [] }
      = Except.error Fault.nullDereference ∧
    updateSettingsById init id json { s with effects := [] }
      = Except.error Fault.nullDereference := by
  refine ⟨?_, ?_, ?_, ?_, ?_⟩
  · simp [activateEffect, activeEffect, State.emit, deref]
  · simp [next, activeEffect, deref]
  · simp [previous, activeEffect, deref]
  · simp [updateCurrentSettings, activeEffect, deref]
  · simp [updateSettingsById, updateLoop, activeEffect, deref]

/-- C7: for an index that is not a position of the enabled list, `activateEffect(index)`
is `activateEffect(0)`: the same outcome, resulting state and sequence of calls. -/
theorem activateEffect_out_of_range (s : State) (index : Nat)
    (h : s.effects.length ≤ index) : activateEffect index s = activateEffect 0 s := by
  unfold activateEffect
  simp [h]

/-- C7 at the scenario state: `activateEffect(7)` on three effects is `activateEffect(0)`,
which completes with Sparkles active. -/
theorem activateEffect_out_of_range_witness :
    demoState.effects.length ≤ 7 ∧ activateEffect 7 demoState = activateEffect 0 demoState ∧
    indexAfter (activateEffect 7 demoState) = some 0 :=
  ⟨by decide, activateEffect_out_of_range demoState 7 (by decide), by decide⟩

/-- C8: when no enabled effect has the name `key`, `changeEffectByName(key)` completes in
the state it started in (same `activeIndex`, same enabled list, no call issued); likewise
`changeEffectById(key)` when no enabled effect has the id `key`. -/
theorem changeEffect_no_match (s : State) (key : String) :
    ((∀ effect ∈ s.effects, (s.settings effect).name ≠ key) →
      changeEffectByName key s = Except.ok s) ∧
    ((∀ effect ∈ s.effects, (s.settings effect).id ≠ key) →
      changeEffectById key s = Except.ok s) := by
  constructor
  · intro h
    exact changeLoop_no_hit _ _ _ _ (fun e he => by simpa using h e he)
  · intro h
    exact changeLoop_no_hit _ _ _ _ (fun e he => by simpa using h e he)

/-- C8 at the scenario state: no enabled effect is called "Unknown". -/
theorem changeEffect_no_match_witness :
    (∀ effect ∈ demoState.effects, (demoState.settings effect).name ≠ "Unknown") ∧
    (∀ effect ∈ demoState.effects, (demoState.settings effect).id ≠ "Unknown") ∧
    changeEffectByName "Unknown" demoState = Except.ok demoState ∧
    changeEffectById "Unknown" demoState = Except.ok demoState :=
  ⟨by decide, by decide,
   (changeEffect_no_match demoState "Unknown").1 (by decide),
   (changeEffect_no_match demoState "Unknown").2 (by decide)⟩

/-- C9 fails when the first match is at position 256: the position is converted to the
8-bit parameter of `activateEffect`, which receives 0. In a list of 257 entries whose last
entry alone is called "Last", both lookups end at position 0. -/
theorem changeEffect_wide_counterexample :
    (wideState 7).activeIndex < (wideState 7).effects.length ∧
    (wideState 7).effects.findIdx (fun e => ((wideState 7).settings e).name == "Last") = 256 ∧
    indexAfter (changeEffectByName "Last" (wideState 7)) = some 0 ∧
    (wideState 7).effects.findIdx (fun e => ((wideState 7).settings e).id == "Last") = 256 ∧
    indexAfter (changeEffectById "Last" (wideState 7)) = some 0 := by
  set_option maxRecDepth 100000 in decide

/-- C9, amended: when `activeIndex` is in range and the smallest position `pos` whose entry
has the given name is below 256, `changeEffectByName(name)` completes with
`activeIndex = pos`; the same holds for `changeEffectById` with ids. -/
theorem changeEffect_first_match (s : State) (key : String) (pos : Nat) (effect : EffectPtr)
    (hactive : s.activeIndex < s.effects.length)
    (hpos : s.effects[pos]? = some effect) (hsmall : pos < 256) :
    ((s.settings effect).name = key →
      (∀ q e, q < pos → s.effects[q]? = some e → (s.settings e).name ≠ key) →
      ∃ s1, changeEffectByName key s = Except.ok s1 ∧ s1.activeIndex = pos) ∧
    ((s.settings effect).id = key →
      (∀ q e, q < pos → s.effects[q]? = some e → (s.settings e).id ≠ key) →
      ∃ s1, changeEffectById key s = Except.ok s1 ∧ s1.activeIndex = pos) := by
  have hlt : pos < s.effects.length := (List.getElem?_eq_some.1 hpos).1
  have hmod : (0 + pos) % 256 = pos := by omega
  obtain ⟨old, hold⟩ := getElem_some_of_lt s.effects _ hactive
  have hc : clampIndex pos s = pos := clampIndex_of_lt s pos hlt
  have hact := activateEffect_eq s pos old effect hold (by rw [hc]; exact hpos)
  rw [hc] at hact
  constructor
  · intro hname hmin
    refine ⟨activated pos old effect s, ?_, rfl⟩
    unfold changeEffectByName
    rw [changeLoop_first_hit _ _ 0 pos s effect hpos (by simpa using hname)
      (fun q e hq he => by simpa using hmin q e hq he), hmod, hact]
  · intro hid hmin
    refine ⟨activated pos old effect s, ?_, rfl⟩
    unfold changeEffectById
    rw [changeLoop_first_hit _ _ 0 pos s effect hpos (by simpa using hid)
      (fun q e hq he => by simpa using hmin q e hq he), hmod, hact]

/-- C9 at the scenario `[Sparkles, Fire, Matrix]`: "Fire" is found at position 1, by name
and by id. -/
theorem changeEffect_first_match_witness :
    (demoState.activeIndex < demoState.effects.length ∧ demoState.effects[1]? = some 1 ∧
      1 < 256 ∧ (demoState.settings 1).name = "Fire" ∧ (demoState.settings 1).id = "Fire") ∧
    (∃ s1, changeEffectByName "Fire" demoState = Except.ok s1 ∧ s1.activeIndex = 1) ∧
    (∃ s1, changeEffectById "Fire" demoState = Except.ok s1 ∧ s1.activeIndex = 1) :=
  ⟨by decide,
   (changeEffect_first_match demoState "Fire" 1 1 (by decide) (by decide) (by decide)).1
     (by decide) (fun q e hq he => by
       have hq0 : q = 0 := by omega
       subst hq0
       have he0 : e = 0 := by simpa [demoState] using he.symm
       subst he0
       decide),
   (changeEffect_first_match demoState "Fire" 1 1 (by decide) (by decide) (by decide)).2
     (by decide) (fun q e hq he => by
       have hq0 : q = 0 := by omega
       subst hq0
       have he0 : e = 0 := by simpa [demoState] using he.symm
       subst he0
       decide)⟩

/-! ## Enabling an effect -/

/-- C10: `processEffectSettings` with a record whose `"i"` is not a key of the registry
completes and leaves the enabled list, `activeIndex` and every effect's settings as they
were; with an `"i"` the registry resolves to `effect` it completes with `effect` appended
at the end of the enabled list and initialized with the record (its settings become what
`initialize` makes of them, nobody else's change), and `activeIndex` unchanged. -/
theorem processEffectSettings_enable (init : InitFn) (json : JsonObject) (s : State) :
    (json.i ∉ s.effectsMap.map Prod.fst →
      ∃ s1, processEffectSettings init json s = Except.ok s1 ∧ s1.effects = s.effects ∧
        s1.activeIndex = s.activeIndex ∧ s1.settings = s.settings) ∧
    (∀ effect, s.effectsMap.lookup json.i = some effect →
      ∃ s1, processEffectSettings init json s = Except.ok s1 ∧
        s1.effects = s.effects ++ [effect] ∧ s1.activeIndex = s.activeIndex ∧
        s1.settings = Function.update s.settings effect (init effect json (s.settings effect)) ∧
        s1.calls = s.calls ++ [Call.effectInit effect json]) := by
  constructor
  · intro hkey
    have hnone : s.effectsMap.lookup json.i = none := lookup_none_of_not_key _ _ hkey
    exact ⟨s.emit (Call.serialMissing json.i),
      by simp [processEffectSettings, mapCount, hnone], rfl, rfl, rfl⟩
  · intro effect hsome
    exact ⟨initEffect init effect json { s with effects := s.effects ++ [effect] },
      by simp [processEffectSettings, mapCount, hsome, deref], rfl, rfl, rfl, rfl⟩

/-- C10 at the scenario state: "Unknown" is not registered and changes nothing; "Fire" is
registered with handle 1 and is appended, the active position staying 0. -/
theorem processEffectSettings_enable_witness :
    ("Unknown" ∉ demoState.effectsMap.map Prod.fst ∧
      demoState.effectsMap.lookup "Fire" = some 1) ∧
    (∃ s1, processEffectSettings demoInit { i := "Unknown", fields := [] } demoState
        = Except.ok s1 ∧ s1.effects = [0, 1, 2] ∧ s1.activeIndex = 0 ∧
        s1.settings = demoSettings) ∧
    (∃ s1, processEffectSettings demoInit { i := "Fire", fields := [("brightness", 200)] }
        demoState = Except.ok s1 ∧ s1.effects = [0, 1, 2] ++ [1] ∧ s1.activeIndex = 0 ∧
        s1.settings = Function.update demoSettings 1
          (demoInit 1 { i := "Fire", fields := [("brightness", 200)] } (demoSettings 1)) ∧
        s1.calls = [] ++ [Call.effectInit 1 { i := "Fire", fields := [("brightness", 200)] }]) :=
  ⟨⟨by decide, by decide⟩,
   (processEffectSettings_enable demoInit { i := "Unknown", fields := [] } demoState).1
     (by decide),
   (processEffectSettings_enable demoInit { i := "Fire", fields := [("brightness", 200)] }
     demoState).2 1 (by decide)⟩

/-! ## Settings updates -/

/-- C11: with an active effect, `updateCurrentSettings(config)` completes; the active
effect is initialized with the record, the brightness of the matrix becomes the active
effect's brightness after that, and `activeIndex`, the enabled list, the registry, the
frame timer and the settings of every other effect stay as they were; the calls issued are
`initialize`, `setBrightness` and `saveLater`, so no `deactivate()` or `activate()`. -/
theorem updateCurrentSettings_frame (init : InitFn) (json : JsonObject) (s : State)
    (e : EffectPtr) (h : activeEffect s = some e) :
    ∃ s1, updateCurrentSettings init json s = Except.ok s1 ∧
      s1.settings e = init e json (s.settings e) ∧
      (∀ other, other ≠ e → s1.settings other = s.settings other) ∧
      s1.brightness = (s1.settings e).brightness ∧
      s1.activeIndex = s.activeIndex ∧ s1.effects = s.effects ∧
      s1.effectsMap = s.effectsMap ∧ s1.effectTimer = s.effectTimer ∧
      s1.calls = s.calls ++ [Call.effectInit e json,
        Call.matrixSetBrightness (s1.settings e).brightness, Call.saveLater] ∧
      deactivations (s1.calls.drop s.calls.length) = [] ∧
      activations (s1.calls.drop s.calls.length) = [] := by
  refine ⟨_, updateCurrentSettings_eq init json s e h, ?_⟩
  refine ⟨?_, ?_, ?_, rfl, rfl, rfl, rfl, ?_, ?_, ?_⟩
  · simp [State.emit, setBrightness, initEffect]
  · intro other hother
    simp [State.emit, setBrightness, initEffect, Function.update_noteq hother]
  · simp [State.emit, setBrightness, initEffect]
  · simp [State.emit, setBrightness, initEffect]
  · simp [State.emit, setBrightness, initEffect, deactivations]
  · simp [State.emit, setBrightness, initEffect, activations]

/-- C11 at the scenario state: Sparkles (handle 0) is active and receives brightness 33;
Fire and Matrix keep their settings. -/
theorem updateCurrentSettings_frame_witness :
    activeEffect demoState = some 0 ∧
    ∃ s1, updateCurrentSettings demoInit { i := "Sparkles", fields := [("brightness", 33)] }
        demoState = Except.ok s1 ∧
      s1.settings 0 = demoInit 0 { i := "Sparkles", fields := [("brightness", 33)] }
        (demoState.settings 0) ∧
      (∀ other, other ≠ 0 → s1.settings other = demoState.settings other) ∧
      s1.brightness = (s1.settings 0).brightness ∧
      s1.activeIndex = demoState.activeIndex ∧ s1.effects = demoState.effects ∧
      s1.effectsMap = demoState.effectsMap ∧ s1.effectTimer = demoState.effectTimer ∧
      s1.calls = demoState.calls ++
        [Call.effectInit 0 { i := "Sparkles", fields := [("brightness", 33)] },
         Call.matrixSetBrightness (s1.settings 0).brightness, Call.saveLater] ∧
      deactivations (s1.calls.drop demoState.calls.length) = [] ∧
      activations (s1.calls.drop demoState.calls.length) = [] :=
  ⟨by decide, updateCurrentSettings_frame demoInit _ demoState 0 (by decide)⟩

/-- C12: when `active` is the active effect and the first enabled effect with the given id
is `target`, a different effect, `updateSettingsById(id, config)` completes with
`activeIndex` unchanged; its calls contain one `deactivate()` and one `activate()`, both on
`active`; `target` is initialized with the record, the settings of `active` are untouched,
and the brightness of the matrix ends equal to the brightness of `active`. -/
theorem updateSettingsById_other (init : InitFn) (id : String) (json : JsonObject)
    (s : State) (active target : EffectPtr) (pos : Nat)
    (hactive : activeEffect s = some active)
    (hpos : s.effects[pos]? = some target) (hid : (s.settings target).id = id)
    (hmin : ∀ q e, q < pos → s.effects[q]? = some e → (s.settings e).id ≠ id)
    (hne : target ≠ active) :
    ∃ s1, updateSettingsById init id json s = Except.ok s1 ∧
      s1.activeIndex = s.activeIndex ∧
      deactivations (s1.calls.drop s.calls.length) = [active] ∧
      activations (s1.calls.drop s.calls.length) = [active] ∧
      Call.effectInit target json ∈ s1.calls.drop s.calls.length ∧
      s1.settings target = init target json (s.settings target) ∧
      s1.settings active = s.settings active ∧
      s1.brightness = (s1.settings active).brightness := by
  have hget := getElem_of_activeEffect s active hactive
  have hloop : updateLoop init id json s.effects s =
      Except.ok (initEffect init target json (activated s.activeIndex active active s)) := by
    rw [updateLoop_first_hit init id json s.effects pos s target hpos hid hmin]
    exact updateLoop_other init id json s active target hget hid hne
  have h1 : activeEffect (initEffect init target json (activated s.activeIndex active active s))
      = some active :=
    activeEffect_eq_some _ _ (by simpa [initEffect, activated] using hget)
  have hupd : Function.update s.settings target (init target json (s.settings target)) active
      = s.settings active := Function.update_noteq (Ne.symm hne) _ _
  refine ⟨_, updateSettingsById_eq init id json s _ active hloop h1, ?_⟩
  refine ⟨rfl, ?_, ?_, ?_, ?_, ?_, ?_⟩
  · simp [State.emit, setBrightness, initEffect, activated, deactivations]
  · simp [State.emit, setBrightness, initEffect, activated, activations]
  · simp [State.emit, setBrightness, initEffect, activated]
  · simp [State.emit, setBrightness, initEffect, activated]
  · simp [State.emit, setBrightness, initEffect, activated, hupd]
  · simp [State.emit, setBrightness, initEffect, activated, hupd]

/-- C12 at the scenario: Sparkles active, `updateSettingsById("Fire", {brightness: 200})`:
the stored brightness of Fire becomes 200, the brightness of the matrix stays 80. -/
theorem updateSettingsById_other_witness :
    (activeEffect demoState = some 0 ∧ demoState.effects[1]? = some 1 ∧
      (demoState.settings 1).id = "Fire" ∧ (1 : EffectPtr) ≠ 0) ∧
    (∃ s1, updateSettingsById demoInit "Fire" { i := "Fire", fields := [("brightness", 200)] }
        demoState = Except.ok s1 ∧
      s1.activeIndex = demoState.activeIndex ∧
      deactivations (s1.calls.drop demoState.calls.length) = [0] ∧
      activations (s1.calls.drop demoState.calls.length) = [0] ∧
      Call.effectInit 1 { i := "Fire", fields := [("brightness", 200)] }
        ∈ s1.calls.drop demoState.calls.length ∧
      s1.settings 1 = demoInit 1 { i := "Fire", fields := [("brightness", 200)] }
        (demoState.settings 1) ∧
      s1.settings 0 = demoState.settings 0 ∧
      s1.brightness = (s1.settings 0).brightness) ∧
    (demoInit 1 { i := "Fire", fields := [("brightness", 200)] }
        (demoState.settings 1)).brightness = 200 ∧
    (demoState.settings 0).brightness = 80 :=
  ⟨by decide,
   updateSettingsById_other demoInit "Fire" _ demoState 0 1 1 (by decide) (by decide)
     (by decide) (fun q e hq he => by
       have hq0 : q = 0 := by omega
       subst hq0
       have he0 : e = 0 := by simpa [demoState] using he.symm
       subst he0
       decide) (by decide),
   by decide, by decide⟩

/-! ## The frame gate -/

/-- C13: `loop()` at time `now`. Without an active effect (`activeIndex` not below the
length of the list) it completes and changes nothing. With the active effect `e` it
completes; when the frame timer is 0 or `now - effectTimer` in unsigned 32-bit arithmetic
is at least the speed of `e`, the frame timer becomes `now` and exactly one call is issued,
`Process()` of `e`; otherwise nothing changes (no call, frame timer as it was). -/
theorem loop_frame_gate (now : Nat) (s : State) :
    (¬ s.activeIndex < s.effects.length → loop now s = Except.ok s) ∧
    (∀ e, activeEffect s = some e →
      ((s.effectTimer = 0 ∨
          (s.settings e).speed ≤ (now + 4294967296 - s.effectTimer) % 4294967296) →
        loop now s = Except.ok
          { s with effectTimer := now, calls := s.calls ++ [Call.effectProcess e] }) ∧
      (¬ (s.effectTimer = 0 ∨
          (s.settings e).speed ≤ (now + 4294967296 - s.effectTimer) % 4294967296) →
        loop now s = Except.ok s)) := by
  refine ⟨?_, ?_⟩
  · intro h
    have hge : s.activeIndex ≥ s.effects.length := by omega
    simp [loop, hge]
  · intro e he
    rw [loop_eq now s e he]
    constructor
    · intro hgate
      rw [if_neg]
      rintro ⟨h0, hlt⟩
      rcases hgate with hz | hsp
      · exact h0 hz
      · omega
    · intro hgate
      rw [if_pos]
      constructor
      · intro hz; exact hgate (Or.inl hz)
      · by_contra hlt
        exact hgate (Or.inr (by omega))

/-- C13 at the scenario state (Sparkles, speed 60): with the frame timer at 1000 a call at
1030 is denied and a call at 1060 is let through; with an empty list nothing happens. -/
theorem loop_frame_gate_witness :
    loop 1030 { demoState with effectTimer := 1000 }
      = Except.ok { demoState with effectTimer := 1000 } ∧
    loop 1060 { demoState with effectTimer := 1000 }
      = Except.ok { demoState with effectTimer := 1060, calls := [Call.effectProcess 0] } ∧
    loop 5 (initialState demoRegistry demoSettings 80)
      = Except.ok (initialState demoRegistry demoSettings 80) :=
  ⟨((loop_frame_gate 1030 { demoState with effectTimer := 1000 }).2 0 (by decide)).2
     (by decide),
   ((loop_frame_gate 1060 { demoState with effectTimer := 1000 }).2 0 (by decide)).1
     (by decide),
   (loop_frame_gate 5 (initialState demoRegistry demoSettings 80)).1 (by decide)⟩

/-- C14 fails when a frame is let through at time 0: the frame timer then holds 0, the
value that stands for no timestamp, and the next call is let through whatever the speed.
Sparkles has speed 60, and calls at times 0 and 1 both invoke `Process()`. -/
theorem loop_spacing_zero_counterexample :
    activeEffect demoState = some 0 ∧ (demoState.settings 0).speed = 60 ∧
    processTimes [0, 1] demoState = [0, 1] ∧ 1 - 0 < 60 := by
  decide

/-- C14, amended: for calls of `loop()` at non-decreasing times below `2^32`, with the
active effect `e` of speed `speed`, two consecutive `Process()` invocations at times `t1`
and `t2` satisfy `t2 - t1 ≥ speed` whenever `t1` is not 0. -/
theorem loop_spacing (times : List Nat) (s : State) (e : EffectPtr) (speed : Nat)
    (h : activeEffect s = some e) (hspeed : (s.settings e).speed = speed)
    (hsorted : times.Pairwise (fun a b => a ≤ b)) (hbound : ∀ t ∈ times, t < 4294967296) :
    List.Chain' (fun t1 t2 => t1 ≠ 0 → speed ≤ t2 - t1) (processTimes times s) :=
  processTimes_chain times s e speed h hspeed hsorted hbound

/-- C14 at the scenario state (Sparkles, speed 60): calls at 5, 6, 70, 100 and 130 invoke
`Process()` at 5, 70 and 130. -/
theorem loop_spacing_witness :
    (activeEffect demoState = some 0 ∧ (demoState.settings 0).speed = 60 ∧
      [5, 6, 70, 100, 130].Pairwise (fun a b => a ≤ b) ∧
      ∀ t ∈ [5, 6, 70, 100, 130], t < 4294967296) ∧
    processTimes [5, 6, 70, 100, 130] demoState = [5, 70, 130] ∧
    List.Chain' (fun t1 t2 => t1 ≠ 0 → 60 ≤ t2 - t1)
      (processTimes [5, 6, 70, 100, 130] demoState) :=
  ⟨by decide, by decide,
   loop_spacing [5, 6, 70, 100, 130] demoState 0 60 (by decide) (by decide) (by decide)
     (by decide)⟩

/-! ## The button: brightness ramp, direction, gestures -/

/-- C15: while running, with a configured button and the active effect `e`: after a hold
detected at brightness 1, `n` step reports leave the brightness of `e` at
`min (1 + n) 255` (one more per report, 255 after 254 reports and from then on); after a
hold detected at brightness 255, they leave it at `max (255 - n) 1`. -/
theorem hold_and_step_ramp (l : Lamp) (e : EffectPtr) (hpin : l.pin ≠ 0)
    (hw : l.working = true) (he : activeEffect l.manager = some e) :
    ((l.manager.settings e).brightness = 1 → ∀ n,
      ∃ l1, buttonTicks (holdTick :: List.replicate n stepTick) l = Except.ok l1 ∧
        (l1.manager.settings e).brightness = min (1 + n) 255) ∧
    ((l.manager.settings e).brightness = 255 → ∀ n,
      ∃ l1, buttonTicks (holdTick :: List.replicate n stepTick) l = Except.ok l1 ∧
        (l1.manager.settings e).brightness = max (255 - n) 1) := by
  have hhold := processButton_holdTick l e hpin hw he
  have he1 : activeEffect (l.manager.emit (Call.serialText "Holded button")) = some e := by
    rw [activeEffect_emit]; exact he
  constructor
  · intro hb n
    rw [hb] at hhold
    obtain ⟨l1, h1, b1⟩ := stepTicks_up n
      { l with isHolding := true, stepDirection := 1,
               manager := l.manager.emit (Call.serialText "Holded button") }
      e 1 hpin hw rfl rfl he1 (by simpa [State.emit] using hb) (by omega)
    refine ⟨l1, ?_, b1⟩
    simp only [buttonTicks, hhold]
    simpa using h1
  · intro hb n
    rw [hb] at hhold
    obtain ⟨l1, h1, b1⟩ := stepTicks_down n
      { l with isHolding := true, stepDirection := -1,
               manager := l.manager.emit (Call.serialText "Holded button") }
      e 255 hpin hw rfl rfl he1 (by simpa [State.emit] using hb) (by omega) (by omega)
    refine ⟨l1, ?_, b1⟩
    simp only [buttonTicks, hhold]
    simpa using h1

/-- C15 at the scenario with the brightness of Sparkles stored as 1, and as 255: 254 step
reports after the hold reach the other end, 300 stay there. -/
theorem hold_and_step_ramp_witness :
    ((rampLamp 1).pin ≠ 0 ∧ (rampLamp 1).working = true ∧
      activeEffect (rampLamp 1).manager = some 0 ∧
      ((rampLamp 1).manager.settings 0).brightness = 1) ∧
    (∃ l1, buttonTicks (holdTick :: List.replicate 254 stepTick) (rampLamp 1) = Except.ok l1 ∧
      (l1.manager.settings 0).brightness = min (1 + 254) 255) ∧
    (∃ l1, buttonTicks (holdTick :: List.replicate 300 stepTick) (rampLamp 1) = Except.ok l1 ∧
      (l1.manager.settings 0).brightness = min (1 + 300) 255) ∧
    (∃ l1, buttonTicks (holdTick :: List.replicate 254 stepTick) (rampLamp 255)
        = Except.ok l1 ∧
      (l1.manager.settings 0).brightness = max (255 - 254) 1) :=
  ⟨by decide,
   (hold_and_step_ramp (rampLamp 1) 0 (by decide) (by decide) (by decide)).1 (by decide) 254,
   (hold_and_step_ramp (rampLamp 1) 0 (by decide) (by decide) (by decide)).1 (by decide) 300,
   (hold_and_step_ramp (rampLamp 255) 0 (by decide) (by decide) (by decide)).2 (by decide)
     254⟩

/-- C16: the ramp direction is 1 at start-up. A report with a detected hold, processed
while running with an active effect, completes; with `b` the 8-bit brightness of the effect
that is active when the hold branch is reached (the active effect of the lamp itself when
the report holds no double or triple click), the direction ends as 1 if `b ≤ 1`, as -1 if
`b = 255`, and as it was before otherwise. Every report that `processButton` completes on
keeps the direction in `{1, -1}`. -/
theorem ramp_direction :
    (∀ manager pin working, (initialLamp manager pin working).stepDirection = 1) ∧
    (∀ (tick : ButtonTick) (l : Lamp), l.pin ≠ 0 →
      (if tick.isSingle then !l.working else l.working) = true →
      tick.isHolded = true → l.manager.activeIndex < l.manager.effects.length →
      ∃ l3 e l1, beforeHold tick l = Except.ok l3 ∧ activeEffect l3.manager = some e ∧
        (tick.isDouble = false → tick.isTriple = false →
          activeEffect l.manager = some e ∧ l3.manager.settings = l.manager.settings) ∧
        processButton tick l = Except.ok l1 ∧
        l1.stepDirection =
          if (l3.manager.settings e).brightness % 256 ≤ 1 then 1
          else if (l3.manager.settings e).brightness % 256 = 255 then -1
          else l.stepDirection) ∧
    (∀ (tick : ButtonTick) (l l1 : Lamp), processButton tick l = Except.ok l1 →
      (l.stepDirection = 1 ∨ l.stepDirection = -1) →
      (l1.stepDirection = 1 ∨ l1.stepDirection = -1)) := by
  refine ⟨fun _ _ _ => rfl, ?_, ?_⟩
  · intro tick l hpin hrun hh hrange
    have hrun0 : (singleBranch tick l).working = true := by
      rw [singleBranch_eq]; exact hrun
    obtain ⟨l3, e, l1, h3, he, hproc, hdir⟩ :=
      processButton_hold_direction tick l hpin hrun0 hh hrange
    refine ⟨l3, e, l1, h3, he, ?_, hproc, hdir⟩
    intro hd ht
    rw [beforeHold_plain tick l hd ht] at h3
    injection h3 with h3
    subst h3
    rw [singleBranch_eq] at he ⊢
    exact ⟨activeEffect_eq_some _ _ (by simpa using getElem_of_activeEffect _ e he), rfl⟩
  · intro tick l l1 h hdir
    by_cases hpin : l.pin = 0
    · simp only [processButton, hpin, if_true] at h
      injection h with h
      subst h
      exact hdir
    · obtain ⟨_, d, _⟩ := processButton_ok_frame tick l l1 hpin h
      rcases d with d | d
      · rw [d]; exact hdir
      · exact d

/-- C16 at the scenario: the direction starts as 1; a hold at brightness 1 selects 1
although the direction was -1, a hold at 255 selects -1, and a hold at 80 (Sparkles) keeps
the direction -1. -/
theorem ramp_direction_witness :
    demoLamp.stepDirection = 1 ∧
    (∃ l3 e l1, beforeHold holdTick { demoLamp with stepDirection := -1 } = Except.ok l3 ∧
      activeEffect l3.manager = some e ∧
      (holdTick.isDouble = false → holdTick.isTriple = false →
        activeEffect ({ demoLamp with stepDirection := -1 } : Lamp).manager = some e ∧
        l3.manager.settings = ({ demoLamp with stepDirection := -1 } : Lamp).manager.settings) ∧
      processButton holdTick { demoLamp with stepDirection := -1 } = Except.ok l1 ∧
      l1.stepDirection =
        if (l3.manager.settings e).brightness % 256 ≤ 1 then 1
        else if (l3.manager.settings e).brightness % 256 = 255 then -1
        else -1) ∧
    (match processButton holdTick { rampLamp 1 with stepDirection := -1 } with
      | Except.ok l1 => some l1.stepDirection
      | Except.error _ => none) = some 1 ∧
    (match processButton holdTick (rampLamp 255) with
      | Except.ok l1 => some l1.stepDirection
      | Except.error _ => none) = some (-1) ∧
    (match processButton holdTick { demoLamp with stepDirection := -1 } with
      | Except.ok l1 => some l1.stepDirection
      | Except.error _ => none) = some (-1) :=
  ⟨ramp_direction.1 demoState 15 true,
   ramp_direction.2.1 holdTick { demoLamp with stepDirection := -1 } (by decide) (by decide)
     (by decide) (by decide),
   by decide, by decide, by decide⟩

/-- C17: with a configured button. When the running flag is false after the single-click
handling of a report, `processButton` completes with `activeIndex`, the enabled list, the
settings of every effect, the brightness of the matrix and the ramp direction unchanged,
and the only calls it issues are those of the single-click branch, so neither `next()` nor
`previous()` runs. For a report with a single click, whenever `processButton` completes the
running flag is flipped and the first calls issued are the log line and `saveLater`; and it
does complete whenever the lamp was running, or has an active effect, or the report holds
no other gesture. -/
theorem gestures_only_while_running (tick : ButtonTick) (l : Lamp) (hpin : l.pin ≠ 0) :
    ((if tick.isSingle then !l.working else l.working) = false →
      ∃ l1, processButton tick l = Except.ok l1 ∧
        l1.manager.activeIndex = l.manager.activeIndex ∧
        l1.manager.effects = l.manager.effects ∧
        l1.manager.settings = l.manager.settings ∧
        l1.manager.brightness = l.manager.brightness ∧
        l1.stepDirection = l.stepDirection ∧
        l1.manager.calls = l.manager.calls ++
          (if tick.isSingle then [Call.serialText "Single button", Call.saveLater] else [])) ∧
    (tick.isSingle = true →
      (∀ l1, processButton tick l = Except.ok l1 →
        l1.working = (!l.working) ∧
        l.manager.calls ++ [Call.serialText "Single button", Call.saveLater]
          <+: l1.manager.calls) ∧
      ((l.working = true ∨ l.manager.activeIndex < l.manager.effects.length ∨
          (tick.isDouble = false ∧ tick.isTriple = false ∧ tick.isHolded = false ∧
            tick.isStep = false)) →
        ∃ l1, processButton tick l = Except.ok l1)) := by
  constructor
  · intro hpaused
    have hw : (singleBranch tick l).working = false := by
      rw [singleBranch_eq]; exact hpaused
    refine ⟨_, processButton_paused tick l hpin hw, ?_⟩
    rw [singleBranch_eq]
    exact ⟨rfl, rfl, rfl, rfl, rfl, rfl⟩
  · intro hsingle
    constructor
    · intro l1 h
      obtain ⟨w, _, c⟩ := processButton_ok_frame tick l l1 hpin h
      rw [singleBranch_eq] at w c
      simp only [hsingle, if_true] at w c
      exact ⟨w, c⟩
    · intro hcond
      cases hw : (singleBranch tick l).working
      · exact ⟨_, processButton_paused tick l hpin hw⟩
      · rcases hcond with hwork | hrange | ⟨hd, ht, hh, hs⟩
        · rw [singleBranch_eq] at hw
          simp [hsingle, hwork] at hw
        · obtain ⟨l1, h1, _⟩ := processButton_running tick l hpin hw hrange
          exact ⟨l1, h1⟩
        · exact ⟨_, processButton_clicks_only tick l hpin hw hd ht hh hs⟩

/-- C17 at the scenario: while paused a double click with a hold and a step changes
nothing; a single click on the running lamp pauses it and schedules a save. -/
theorem gestures_only_while_running_witness :
    ({ demoLamp with working := false } : Lamp).pin ≠ 0 ∧
    (∃ l1, processButton { idleTick with isDouble := true, isHolded := true, isStep := true }
        { demoLamp with working := false } = Except.ok l1 ∧
      l1.manager.activeIndex = 0 ∧ l1.manager.effects = [0, 1, 2] ∧
      l1.manager.settings = demoSettings ∧ l1.manager.brightness = 80 ∧
      l1.stepDirection = 1 ∧ l1.manager.calls = [] ++ []) ∧
    (∃ l1, processButton { idleTick with isSingle := true } demoLamp = Except.ok l1) ∧
    holdingAndCalls (processButton { idleTick with isSingle := true } demoLamp)
      = some (false, [Call.serialText "Single button", Call.saveLater]) :=
  ⟨by decide,
   (gestures_only_while_running
     { idleTick with isDouble := true, isHolded := true, isStep := true }
     { demoLamp with working := false } (by decide)).1 (by decide),
   ((gestures_only_while_running { idleTick with isSingle := true } demoLamp (by decide)).2
     (by decide)).2 (Or.inl (by decide)),
   by decide⟩

/-- C18 fails while the lamp is paused: with the holding flag set, a release changes
nothing, the flag stays set and no save is scheduled. It also fails on a report of a step
and a release at once when the ramp is at its bound, where the step branch returns before
the release is looked at. -/
theorem release_paused_counterexample :
    (pausedHolding.pin ≠ 0 ∧ pausedHolding.isHolding = true ∧ releaseTick.isRelease = true) ∧
    holdingAndCalls (processButton releaseTick pausedHolding) = some (true, []) ∧
    (rampAtTop.pin ≠ 0 ∧ rampAtTop.isHolding = true ∧ rampAtTop.working = true ∧
      stepReleaseTick.isRelease = true) ∧
    holdingAndCalls (processButton stepReleaseTick rampAtTop) = some (true, []) := by
  decide

/-- C18, amended: with a configured button, the holding flag set and the lamp running
after the single-click handling of the report, a report of a release is processed as
follows. When an active effect exists, `processButton` reaches the step branch in a lamp
`l4` with an active effect `e` (for a report without double click, triple click and
detected hold these are the active effect, the settings and the ramp direction of the lamp
itself); unless the report also holds a step while the 8-bit brightness of `e` is at the
bound in the ramp direction (1 going down, 255 going up), `processButton` completes with
the holding flag cleared, and the last calls issued are the log line of the release and
`saveLater`. The same holds in every state, with or without an active effect, when the
report holds no double click, triple click, detected hold or step. -/
theorem release_after_hold (tick : ButtonTick) (l : Lamp) (hpin : l.pin ≠ 0)
    (hhold : l.isHolding = true) (hrel : tick.isRelease = true)
    (hrun : (if tick.isSingle then !l.working else l.working) = true) :
    (l.manager.activeIndex < l.manager.effects.length →
      ∃ l4 e, beforeStep tick l = Except.ok l4 ∧ activeEffect l4.manager = some e ∧
        (tick.isDouble = false → tick.isTriple = false → tick.isHolded = false →
          activeEffect l.manager = some e ∧ l4.manager.settings = l.manager.settings ∧
          l4.stepDirection = l.stepDirection) ∧
        (¬ (tick.isStep = true ∧
            ((l4.stepDirection < 0 ∧ (l4.manager.settings e).brightness % 256 = 1) ∨
             (l4.stepDirection > 0 ∧ (l4.manager.settings e).brightness % 256 = 255))) →
          ∃ l1 before, processButton tick l = Except.ok l1 ∧ l1.isHolding = false ∧
            l1.manager.calls = l.manager.calls ++ before ++
              [Call.serialText "Release button", Call.saveLater])) ∧
    (tick.isDouble = false → tick.isTriple = false → tick.isHolded = false →
      tick.isStep = false →
      ∃ l1 before, processButton tick l = Except.ok l1 ∧ l1.isHolding = false ∧
        l1.manager.calls = l.manager.calls ++ before ++
          [Call.serialText "Release button", Call.saveLater]) := by
  have hrun0 : (singleBranch tick l).working = true := by
    rw [singleBranch_eq]; exact hrun
  constructor
  · intro hrange
    obtain ⟨l4, e, h4, he, hfinal⟩ :=
      processButton_release_step tick l hpin hhold hrel hrun0 hrange
    refine ⟨l4, e, h4, he, ?_, hfinal⟩
    intro hd ht hh
    rw [beforeStep_plain tick l hd ht hh] at h4
    injection h4 with h4
    subst h4
    rw [singleBranch_eq] at he ⊢
    exact ⟨activeEffect_eq_some _ _ (by simpa using getElem_of_activeEffect _ e he), rfl, rfl⟩
  · intro hd ht hh hs
    refine ⟨_, if tick.isSingle then [Call.serialText "Single button", Call.saveLater] else [],
      processButton_clicks_only tick l hpin hrun0 hd ht hh hs, ?_, ?_⟩
    · rw [releaseBranch_eq, singleBranch_eq]; simp [hrel, hhold]
    · rw [releaseBranch_eq, singleBranch_eq]; simp [hrel, hhold]

/-- C18 at the scenario with the holding flag set (Sparkles, brightness 80, direction 1):
a report of a step and a release at once steps to 81, then clears the flag and saves; a
report of a release alone clears the flag and saves. -/
theorem release_after_hold_witness :
    (({ demoLamp with isHolding := true } : Lamp).pin ≠ 0 ∧
      ({ demoLamp with isHolding := true } : Lamp).isHolding = true ∧
      stepReleaseTick.isRelease = true ∧ releaseTick.isRelease = true) ∧
    (∃ l4 e, beforeStep stepReleaseTick { demoLamp with isHolding := true } = Except.ok l4 ∧
      activeEffect l4.manager = some e ∧
      (stepReleaseTick.isDouble = false → stepReleaseTick.isTriple = false →
        stepReleaseTick.isHolded = false →
        activeEffect ({ demoLamp with isHolding := true } : Lamp).manager = some e ∧
        l4.manager.settings = ({ demoLamp with isHolding := true } : Lamp).manager.settings ∧
        l4.stepDirection = ({ demoLamp with isHolding := true } : Lamp).stepDirection) ∧
      (¬ (stepReleaseTick.isStep = true ∧
          ((l4.stepDirection < 0 ∧ (l4.manager.settings e).brightness % 256 = 1) ∨
           (l4.stepDirection > 0 ∧ (l4.manager.settings e).brightness % 256 = 255))) →
        ∃ l1 before, processButton stepReleaseTick { demoLamp with isHolding := true }
            = Except.ok l1 ∧ l1.isHolding = false ∧
          l1.manager.calls = ({ demoLamp with isHolding := true } : Lamp).manager.calls ++
            before ++ [Call.serialText "Release button", Call.saveLater])) ∧
    holdingAndCalls (processButton stepReleaseTick { demoLamp with isHolding := true })
      = some (false, [Call.serialStep 1 81, Call.matrixSetBrightness 81, Call.saveLater,
          Call.serialText "Release button", Call.saveLater]) ∧
    (∃ l1 before, processButton releaseTick { demoLamp with isHolding := true }
        = Except.ok l1 ∧ l1.isHolding = false ∧
      l1.manager.calls = ({ demoLamp with isHolding := true } : Lamp).manager.calls ++
        before ++ [Call.serialText "Release button", Call.saveLater]) ∧
    holdingAndCalls (processButton releaseTick { demoLamp with isHolding := true })
      = some (false, [Call.serialText "Release button", Call.saveLater]) :=
  ⟨by decide,
   (release_after_hold stepReleaseTick { demoLamp with isHolding := true } (by decide)
     (by decide) (by decide) (by decide)).1 (by decide),
   by decide,
   (release_after_hold releaseTick { demoLamp with isHolding := true } (by decide)
     (by decide) (by decide) (by decide)).2 (by decide) (by decide) (by decide) (by decide),
   by decide⟩

/-! ## The render bridge -/

/-- C19: `processMatrix32` entered while a request is outstanding (`userTaskHandle` not 0)
issues no call and changes nothing. Entered with no request outstanding it issues, in this
order, `noInterrupts()`, the read of the current task handle, one `xTaskNotifyGive` to the
render task, one `ulTaskNotifyTake` with the block time `pdMS_TO_TICKS(200)` and
`interrupts()`, and returns with `userTaskHandle = 0` whatever the take returned. While its
caller is suspended in the take, another call of `processMatrix32` does nothing. One round
of `processMatrixTask` takes with `portMAX_DELAY`, calls `processMatrix()` and then gives
to `userTaskHandle`, which it leaves as it is. In every sequence of calls, returns from the
take and render rounds after `setup()`, at most one request is in flight: one exactly while
`userTaskHandle` is not 0. -/
theorem render_bridge_single_request :
    (∀ (b : Bridge) (current taken : Nat), b.userTaskHandle ≠ 0 →
      processMatrix32 current taken b = b) ∧
    (∀ (b : Bridge) (current taken : Nat), b.userTaskHandle = 0 →
      (processMatrix32 current taken b).userTaskHandle = 0 ∧
      (processMatrix32 current taken b).processMatrixTaskHandle = b.processMatrixTaskHandle ∧
      (processMatrix32 current taken b).calls = b.calls ++
        [BridgeCall.noInterrupts, BridgeCall.currentTaskHandle,
         BridgeCall.notifyGive b.processMatrixTaskHandle,
         BridgeCall.notifyTake true (BlockTime.ticksOfMs 200), BridgeCall.interrupts]) ∧
    (∀ (b : Bridge) (current other taken : Nat), current ≠ 0 → b.userTaskHandle = 0 →
      (bridgeEnter current b).userTaskHandle = current ∧
      processMatrix32 other taken (bridgeEnter current b) = bridgeEnter current b ∧
      bridgeLeave taken (bridgeEnter current b) = processMatrix32 current taken b) ∧
    (∀ b : Bridge,
      (processMatrixTask b).userTaskHandle = b.userTaskHandle ∧
      (processMatrixTask b).processMatrixTaskHandle = b.processMatrixTaskHandle ∧
      (processMatrixTask b).calls = b.calls ++
        [BridgeCall.notifyTake true BlockTime.maxDelay, BridgeCall.processMatrix,
         BridgeCall.notifyGive b.userTaskHandle]) ∧
    (∀ (events : List BridgeEvent) (renderTask : Nat), renderTask ≠ 0 →
      (∀ current, BridgeEvent.enter current ∈ events → current ≠ 0 ∧ current ≠ renderTask) →
      requestsInFlight (bridgeRun events (startedBridge renderTask)) =
        (if (bridgeRun events (startedBridge renderTask)).userTaskHandle = 0 then 0 else 1) ∧
      requestsInFlight (bridgeRun events (startedBridge renderTask)) ≤ 1) := by
  refine ⟨?_, ?_, ?_, ?_, ?_⟩
  · intro b current taken h
    simp [processMatrix32, h]
  · intro b current taken h
    rw [processMatrix32_calls current taken b h]
    exact ⟨rfl, rfl, rfl⟩
  · intro b current other taken hc h
    refine ⟨rfl, ?_, ?_⟩
    · have hflag : (bridgeEnter current b).userTaskHandle ≠ 0 := hc
      simp [processMatrix32, hflag]
    · simp [processMatrix32, h]
  · intro b
    exact ⟨rfl, rfl, by simp [processMatrixTask, Bridge.emit]⟩
  · intro events renderTask hr hev
    have h := bridgeRun_invariant events (startedBridge renderTask) renderTask hr hev rfl
      (fun h => hr h.symm) (by simp [startedBridge])
    refine ⟨h, ?_⟩
    rw [h]
    split <;> omega

/-- C19 on a run with the render task 3 and the control task 7: task 7 calls, a second
call (task 8) arrives during the wait, the render task runs a round, the wait ends, and a
later call times out. Two notifications reach the render task, never two at once. -/
theorem render_bridge_single_request_witness :
    ((3 : Nat) ≠ 0 ∧
      ∀ current, BridgeEvent.enter current ∈
          [BridgeEvent.enter 7, BridgeEvent.enter 8, BridgeEvent.render,
           BridgeEvent.resume 1, BridgeEvent.enter 7, BridgeEvent.resume 0] →
        current ≠ 0 ∧ current ≠ 3) ∧
    (requestsInFlight (bridgeRun
        [BridgeEvent.enter 7, BridgeEvent.enter 8, BridgeEvent.render,
         BridgeEvent.resume 1, BridgeEvent.enter 7, BridgeEvent.resume 0] (startedBridge 3)) =
      (if (bridgeRun
        [BridgeEvent.enter 7, BridgeEvent.enter 8, BridgeEvent.render,
         BridgeEvent.resume 1, BridgeEvent.enter 7, BridgeEvent.resume 0]
          (startedBridge 3)).userTaskHandle = 0 then 0 else 1) ∧
     requestsInFlight (bridgeRun
        [BridgeEvent.enter 7, BridgeEvent.enter 8, BridgeEvent.render,
         BridgeEvent.resume 1, BridgeEvent.enter 7, BridgeEvent.resume 0] (startedBridge 3))
       ≤ 1) ∧
    requestsInFlight (bridgeRun [BridgeEvent.enter 7, BridgeEvent.enter 8, BridgeEvent.render]
      (startedBridge 3)) = 1 ∧
    (bridgeRun [BridgeEvent.enter 7, BridgeEvent.enter 8, BridgeEvent.render]
      (startedBridge 3)).calls =
      [BridgeCall.noInterrupts, BridgeCall.currentTaskHandle, BridgeCall.notifyGive 3,
       BridgeCall.notifyTake true (BlockTime.ticksOfMs 200),
       BridgeCall.notifyTake true BlockTime.maxDelay, BridgeCall.processMatrix,
       BridgeCall.notifyGive 7] ∧
    (processMatrix32 7 0 (startedBridge 3)).calls =
      [BridgeCall.noInterrupts, BridgeCall.currentTaskHandle, BridgeCall.notifyGive 3,
       BridgeCall.notifyTake true (BlockTime.ticksOfMs 200), BridgeCall.interrupts] :=
  ⟨⟨by decide, fun current h => by
      simp at h
      constructor <;> omega⟩,
   render_bridge_single_request.2.2.2.2 _ 3 (by decide) (fun current h => by
      simp at h
      constructor <;> omega),
   by decide, by decide, by decide⟩

/-! ## Call order of `next()` and `previous()` -/

/-- C20 fails on the scenario `[Sparkles, Fire, Matrix]` with Sparkles active: the first
call of `next()` and of `previous()` is `deactivate()` on Sparkles, not the clear, and the
newly selected effect (Fire at position 1, Matrix at position 2) receives a `deactivate()`
before its `activate()`. -/
theorem next_previous_order_counterexample :
    (2 ≤ demoState.effects.length ∧ demoState.activeIndex < demoState.effects.length ∧
      demoState.effects[demoState.activeIndex]? = some 0) ∧
    (indexAfter (next demoState) = some 1 ∧ demoState.effects[1]? = some 1 ∧
      callsOf (next demoState) = some [Call.effectDeactivate 0, Call.matrixClear,
        Call.matrixClear, Call.effectDeactivate 1, Call.matrixSetBrightness 120,
        Call.serialActivating 1 "Fire", Call.effectActivate 1, Call.mqttUpdate,
        Call.webUpdate, Call.saveLater]) ∧
    (indexAfter (previous demoState) = some 2 ∧ demoState.effects[2]? = some 2 ∧
      (callsOf (previous demoState)).map deactivations = some [0, 2]) := by
  decide

/-- C20, amended: with `activeIndex` in range, `next()` and `previous()` complete and issue
exactly these calls, in this order: `deactivate()` on the effect that was active before
(`old`), clear; then, the index being advanced, the calls of `activateEffect` at the new
position: clear, `deactivate()` on the effect at the new position (`new`),
`setBrightness` with the brightness of `new`, the log line, `activate()` on `new`, the two
status updates and `saveLater`. So `deactivate()` goes to `old` and then to `new`, and the
only `activate()` goes to `new`. -/
theorem next_previous_call_order (s : State) (hactive : s.activeIndex < s.effects.length) :
    (∃ s1 old new, next s = Except.ok s1 ∧ s.effects[s.activeIndex]? = some old ∧
      s.effects[s1.activeIndex]? = some new ∧
      s1.calls = s.calls ++
        [Call.effectDeactivate old, Call.matrixClear, Call.matrixClear,
         Call.effectDeactivate new, Call.matrixSetBrightness (s.settings new).brightness,
         Call.serialActivating s1.activeIndex (s.settings new).name,
         Call.effectActivate new, Call.mqttUpdate, Call.webUpdate, Call.saveLater] ∧
      deactivations (s1.calls.drop s.calls.length) = [old, new] ∧
      activations (s1.calls.drop s.calls.length) = [new]) ∧
    (∃ s1 old new, previous s = Except.ok s1 ∧ s.effects[s.activeIndex]? = some old ∧
      s.effects[s1.activeIndex]? = some new ∧
      s1.calls = s.calls ++
        [Call.effectDeactivate old, Call.matrixClear, Call.matrixClear,
         Call.effectDeactivate new, Call.matrixSetBrightness (s.settings new).brightness,
         Call.serialActivating s1.activeIndex (s.settings new).name,
         Call.effectActivate new, Call.mqttUpdate, Call.webUpdate, Call.saveLater] ∧
      deactivations (s1.calls.drop s.calls.length) = [old, new] ∧
      activations (s1.calls.drop s.calls.length) = [new]) := by
  constructor
  · obtain ⟨cur, new, hcur, hnew, h⟩ := next_ok s hactive
    refine ⟨_, cur, new, h, hcur, ?_, ?_, ?_, ?_⟩
    · simpa [activated, advanced] using hnew
    · simp [activated, advanced]
    · simp [activated, advanced, deactivations]
    · simp [activated, advanced, activations]
  · obtain ⟨cur, new, hcur, hnew, h⟩ := previous_ok s hactive
    refine ⟨_, cur, new, h, hcur, ?_, ?_, ?_, ?_⟩
    · simpa [activated, advanced] using hnew
    · simp [activated, advanced]
    · simp [activated, advanced, deactivations]
    · simp [activated, advanced, activations]

/-- C20 at the scenario `[Sparkles, Fire, Matrix]` with Sparkles active: `next()` calls
`deactivate()` on Sparkles and on Fire, `previous()` on Sparkles and on Matrix. -/
theorem next_previous_call_order_witness :
    demoState.activeIndex < demoState.effects.length ∧
    (∃ s1 old new, next demoState = Except.ok s1 ∧
      demoState.effects[demoState.activeIndex]? = some old ∧
      demoState.effects[s1.activeIndex]? = some new ∧
      s1.calls = demoState.calls ++
        [Call.effectDeactivate old, Call.matrixClear, Call.matrixClear,
         Call.effectDeactivate new,
         Call.matrixSetBrightness (demoState.settings new).brightness,
         Call.serialActivating s1.activeIndex (demoState.settings new).name,
         Call.effectActivate new, Call.mqttUpdate, Call.webUpdate, Call.saveLater] ∧
      deactivations (s1.calls.drop demoState.calls.length) = [old, new] ∧
      activations (s1.calls.drop demoState.calls.length) = [new]) ∧
    (callsOf (next demoState)).map deactivations = some [0, 1] ∧
    (callsOf (next demoState)).map activations = some [1] ∧
    (callsOf (previous demoState)).map activations = some [2] :=
  ⟨by decide, (next_previous_call_order demoState (by decide)).1, by decide, by decide,
   by decide⟩

/-! ## A single step of the brightness ramp -/

/-- C21 fails at the stored brightness 0 with direction -1: the step branch only stops at
brightness 1, so the 8-bit decrement wraps and the step stores 255. It also fails on the
no-op at the bound when the brightness of the matrix differs from the stored one (255
stored, 80 live): the early return leaves both as they were. -/
theorem brightness_step_counterexample :
    (rampBelowFloor.pin ≠ 0 ∧ rampBelowFloor.working = true ∧
      rampBelowFloor.isHolding = true ∧ rampBelowFloor.stepDirection = -1 ∧
      activeEffect rampBelowFloor.manager = some 0 ∧
      (rampBelowFloor.manager.settings 0).brightness = 0) ∧
    storedAndLive 0 (processButton stepTick rampBelowFloor) = some (255, 255) ∧
    (rampAtTop.pin ≠ 0 ∧ rampAtTop.working = true ∧ rampAtTop.isHolding = true ∧
      rampAtTop.stepDirection = 1 ∧ activeEffect rampAtTop.manager = some 0 ∧
      (rampAtTop.manager.settings 0).brightness = 255 ∧ rampAtTop.manager.brightness = 80) ∧
    storedAndLive 0 (processButton stepTick rampAtTop) = some (255, 80) := by
  decide

/-- C21, amended: while running and holding, with a configured button, the active effect
`e` of stored 8-bit brightness `b` and the direction 1 or -1, but not `b = 0` with
direction -1, a step report completes. At the bound in the ramp direction (255 going up,
1 going down) the lamp is left exactly as it was; otherwise the stored brightness becomes
`b` plus the direction and the brightness of the matrix is set to the same value. The
stored brightness ends in `[1,255]`, and it equals the brightness of the matrix after the
step whenever it did before. -/
theorem brightness_step (l : Lamp) (e : EffectPtr) (b : Nat) (hpin : l.pin ≠ 0)
    (hw : l.working = true) (hh : l.isHolding = true)
    (he : activeEffect l.manager = some e) (hb : (l.manager.settings e).brightness = b)
    (h8 : b ≤ 255) (hdir : l.stepDirection = 1 ∨ l.stepDirection = -1)
    (hfloor : ¬ (b = 0 ∧ l.stepDirection = -1)) :
    ∃ l1, processButton stepTick l = Except.ok l1 ∧
      (((l.stepDirection = 1 ∧ b = 255) ∨ (l.stepDirection = -1 ∧ b = 1)) → l1 = l) ∧
      (¬ ((l.stepDirection = 1 ∧ b = 255) ∨ (l.stepDirection = -1 ∧ b = 1)) →
        ((l1.manager.settings e).brightness : Int) = (b : Int) + l.stepDirection ∧
        l1.manager.brightness = (l1.manager.settings e).brightness) ∧
      1 ≤ (l1.manager.settings e).brightness ∧ (l1.manager.settings e).brightness ≤ 255 ∧
      (l.manager.brightness = b →
        l1.manager.brightness = (l1.manager.settings e).brightness) := by
  have hmod : b % 256 = b := by omega
  rw [processButton_stepTick l hpin hw, stepBranch_step stepTick l e hh rfl he, hb, hmod]
  rcases hdir with hd | hd
  · rw [hd]
    by_cases htop : b = 255
    · refine ⟨l, by simp [htop], fun _ => rfl, ?_, ?_, ?_, ?_⟩
      · intro hnot; exact absurd (Or.inl ⟨rfl, htop⟩) hnot
      · rw [hb]; omega
      · rw [hb]; omega
      · intro hlive; rw [hlive, hb]
    · have hval : stepValue b 1 = b + 1 := by unfold stepValue; omega
      refine ⟨stepped (b + 1) e l, by simp [htop, hval], ?_, ?_, ?_, ?_, ?_⟩
      · rintro (⟨_, h⟩ | ⟨h, _⟩)
        · exact absurd h htop
        · omega
      · intro _
        simp [stepped, Function.update_same]
      · simp [stepped, Function.update_same]
      · simp only [stepped, Function.update_same]; omega
      · intro _
        simp [stepped, Function.update_same]
  · rw [hd]
    have hpos : 1 ≤ b := by
      rcases Nat.eq_zero_or_pos b with h0 | h0
      · exact absurd ⟨h0, hd⟩ hfloor
      · exact h0
    by_cases hbot : b = 1
    · refine ⟨l, by simp [hbot], fun _ => rfl, ?_, ?_, ?_, ?_⟩
      · intro hnot; exact absurd (Or.inr ⟨rfl, hbot⟩) hnot
      · rw [hb]; omega
      · rw [hb]; omega
      · intro hlive; rw [hlive, hb]
    · have hval : stepValue b (-1) = b - 1 := by unfold stepValue; omega
      refine ⟨stepped (b - 1) e l, by simp [hbot, hval], ?_, ?_, ?_, ?_, ?_⟩
      · rintro (⟨h, _⟩ | ⟨_, h⟩)
        · omega
        · exact absurd h hbot
      · intro _
        refine ⟨?_, by simp [stepped, Function.update_same]⟩
        simp only [stepped, Function.update_same]
        omega
      · simp only [stepped, Function.update_same]; omega
      · simp only [stepped, Function.update_same]; omega
      · intro _
        simp [stepped, Function.update_same]

/-- C21 at the scenario (Sparkles, brightness 80 stored and live) during a downward ramp:
the step stores 79 in the effect and in the matrix. -/
theorem brightness_step_witness :
    (({ demoLamp with isHolding := true, stepDirection := -1 } : Lamp).pin ≠ 0 ∧
      activeEffect ({ demoLamp with isHolding := true, stepDirection := -1 } : Lamp).manager
        = some 0 ∧
      (({ demoLamp with isHolding := true, stepDirection := -1 } : Lamp).manager.settings
        0).brightness = 80 ∧
      ¬ (80 = 0 ∧ (-1 : Int) = -1)) ∧
    (∃ l1, processButton stepTick { demoLamp with isHolding := true, stepDirection := -1 }
        = Except.ok l1 ∧
      (((-1 : Int) = 1 ∧ 80 = 255) ∨ ((-1 : Int) = -1 ∧ 80 = 1) →
        l1 = { demoLamp with isHolding := true, stepDirection := -1 }) ∧
      (¬ (((-1 : Int) = 1 ∧ 80 = 255) ∨ ((-1 : Int) = -1 ∧ 80 = 1)) →
        ((l1.manager.settings 0).brightness : Int) = ((80 : Nat) : Int) + (-1) ∧
        l1.manager.brightness = (l1.manager.settings 0).brightness) ∧
      1 ≤ (l1.manager.settings 0).brightness ∧ (l1.manager.settings 0).brightness ≤ 255 ∧
      (({ demoLamp with isHolding := true, stepDirection := -1 } : Lamp).manager.brightness
          = 80 →
        l1.manager.brightness = (l1.manager.settings 0).brightness)) ∧
    storedAndLive 0
      (processButton stepTick { demoLamp with isHolding := true, stepDirection := -1 })
      = some (79, 79) :=
  ⟨by decide,
   brightness_step { demoLamp with isHolding := true, stepDirection := -1 } 0 80 (by decide)
     (by decide) (by decide) (by decide) (by decide) (by decide) (by decide) (by decide),
   by decide⟩

end GyverLamp
